import Mathlib

/-!
# Verification of the excel-mobile-cleaner core (`src/src/app/app.ts`)

A shallow embedding, in Lean 4, of the number-normalization / validation
pipeline, the CSV line parser, the sheet-size guard and the row-processing
pipeline of the `AppComponent` class in `src/src/app/app.ts`, together with
proofs of the behavioural claims made about it.

Modelling conventions:
* JavaScript cell values (the `any`-typed entries of `rawData`) are modelled
  by the tagged union `CellValue` (text, finite integral number, boolean,
  and `null`/`undefined` collapsed into one constructor).  Non-integral
  numeric cells and numbers at or beyond 1e21 (where JavaScript's `String`
  switches to exponent notation) are outside the model; no claim depends on
  them.  IEEE-754 rounding of `Number(text)` is idealized as exact decimal
  arithmetic, which agrees with JavaScript on every integer below 2^53.
* All string computation is done on `List Char` so that every definition
  reduces in the kernel; `String` appears only at interfaces.
* Side effects that do not influence the claims (DOM updates, progress
  reporting, yields to the browser scheduler, the actual file download) are
  dropped; the mutable per-run state (`stats`, `statDownloads`,
  `seenNumbers`, output accumulators) is threaded explicitly.
-/

namespace MobileCleaner

/-! ## Configurable constants (lines 280-296 of `app.ts`) -/

def MAX_STAT_DOWNLOAD_ROWS : Nat := 10000

def MAX_SHEET_ROWS : Nat := 2000000

def MAX_SHEET_COLUMNS : Nat := 500

def MAX_SHEET_CELLS : Nat := 50000000

def LARGE_SHEET_WARNING_ROWS : Nat := 250000

def FAST_MODE_ROWS : Nat := 100000

/-! ## Cell values and JavaScript primitive conversions -/

/-- A spreadsheet cell value as the pipeline sees it: text, a finite
integral number, a boolean, or `null`/`undefined` (collapsed). -/
inductive CellValue where
  | null : CellValue
  | str : String → CellValue
  | int : Int → CellValue
  | bool : Bool → CellValue
deriving DecidableEq, Repr

/-- JavaScript `String(value)`.  (`String(null)` is `"null"`; the model
collapses `undefined` into `.null` — both stringify to a digit-free word,
and every use in the embedded code either guards the value first or only
looks at its digits.) -/
def jsStringOf : CellValue → String
  | .null => "null"
  | .str s => s
  | .int n => toString n
  | .bool b => if b then "true" else "false"

/-- JavaScript truthiness of a cell value (`''`, `0`, `false`,
`null`/`undefined` are falsy). -/
def jsTruthy : CellValue → Bool
  | .null => false
  | .str s => !(s == "")
  | .int n => !(n == 0)
  | .bool b => b

/-- Whitespace as trimmed by JavaScript's `String.prototype.trim` (the
ASCII portion; exotic Unicode space code points never reach the pipeline). -/
def jsIsSpace (c : Char) : Bool :=
  c == ' ' || c == '\t' || c == '\n' || c == '\r' || c == '\x0b' || c == '\x0c'

/-- JavaScript `trim()` on a character list: drop whitespace from both ends. -/
def trimChars (l : List Char) : List Char :=
  ((l.dropWhile jsIsSpace).reverse.dropWhile jsIsSpace).reverse

/-- JavaScript `value.trim()` on a string. -/
def jsTrim (s : String) : String := ⟨trimChars s.data⟩

/-- The `replace(/[^0-9]/g, '')` step: keep only decimal digits. -/
def digitsOnly (s : String) : String := ⟨s.data.filter Char.isDigit⟩

/-! ## `normalizeMobileSource` (lines 1108-1127): scientific-notation and
numeric-cell recovery -/

/-- The pieces of a string matching `/^[+-]?\d+(\.\d+)?e[+-]?\d+$/i`
(line 1114): sign, integer digits, fractional digits, exponent sign and
exponent digits. -/
structure SciParts where
  neg : Bool
  intDigits : List Char
  fracDigits : List Char
  expNeg : Bool
  expDigits : List Char
deriving DecidableEq, Repr

/-- Strip one leading `+`/`-` sign, returning whether it was `-`. -/
def stripSign : List Char → Bool × List Char
  | '+' :: r => (false, r)
  | '-' :: r => (true, r)
  | l => (false, l)

/-- Parse the regex `/^[+-]?\d+(\.\d+)?e[+-]?\d+$/i` of line 1114; `none`
when the text does not match. -/
def parseSci (l : List Char) : Option SciParts :=
  let sp := stripSign l
  let ip := sp.2.takeWhile Char.isDigit
  let rest1 := sp.2.dropWhile Char.isDigit
  if ip.isEmpty then none
  else
    let fpRest : Option (List Char × List Char) :=
      match rest1 with
      | '.' :: r =>
        let d := r.takeWhile Char.isDigit
        if d.isEmpty then none else some (d, r.dropWhile Char.isDigit)
      | other => some ([], other)
    match fpRest with
    | none => none
    | some (fp, rest2) =>
      match rest2 with
      | e :: rest3 =>
        if e == 'e' || e == 'E' then
          let esp := stripSign rest3
          let ed := esp.2.takeWhile Char.isDigit
          if ed.isEmpty || !(esp.2.dropWhile Char.isDigit).isEmpty then none
          else some ⟨sp.1, ip, fp, esp.1, ed⟩
        else none
      | [] => none

/-- Value of a digit list read in base 10. -/
def digitsToNat (l : List Char) : Nat :=
  l.foldl (fun a c => 10 * a + (c.toNat - '0'.toNat)) 0

/-- Function `numberToPlainString` (lines 1124-1127) for an integral value:
JavaScript `String(value)` (plain decimal for |value| < 1e21, the range the
model covers). -/
def numberToPlainString (n : Int) : String := toString n

/-- Strip trailing zeros (used for the fractional part of a non-integral
decimal expansion, as `toLocaleString` with `minimumFractionDigits` 0 does
not print them). -/
def dropTrailingZeros (l : List Char) : List Char :=
  (l.reverse.dropWhile (fun c => c == '0')).reverse

/-- Decimal digit list of a natural number (no sign). -/
def natDigits (n : Nat) : List Char := (toString n).data

/-- Function `numberToPlainString` applied to the exact value `±mant / 10^shift`
obtained from a scientific-notation literal: the `Number.isInteger` branch
gives plain integer rendering, otherwise `toLocaleString('en-US',
useGrouping false, maximumFractionDigits 20)` renders a plain decimal
(modelled as the exact expansion, truncated to 20 fractional digits). -/
def renderScaled (neg : Bool) (mant : Nat) (shift : Nat) : String :=
  let p := 10 ^ shift
  if mant % p == 0 then
    -- integral value: String(value); String(-0) is "0"
    let q := mant / p
    if q == 0 then "0" else (if neg then "-" else "") ++ ⟨natDigits q⟩
  else
    let ipart := mant / p
    let fpart := mant % p
    let fdigits := List.replicate (shift - (natDigits fpart).length) '0' ++ natDigits fpart
    let fshown := dropTrailingZeros (fdigits.take 20)
    (if neg then "-" else "") ++ ⟨natDigits ipart⟩ ++ "." ++ ⟨fshown⟩

/-- The plain-decimal string produced for a parsed scientific-notation
literal: value is `± D * 10^(E - f)` with `D` the concatenated digits,
`f` the fractional length and `E` the signed exponent. -/
def sciToPlainString (p : SciParts) : String :=
  let D := digitsToNat (p.intDigits ++ p.fracDigits)
  let f : Int := p.fracDigits.length
  let E : Int := if p.expNeg then -(digitsToNat p.expDigits : Int) else (digitsToNat p.expDigits : Int)
  if f ≤ E then
    -- integral: D * 10^(E-f)
    let v : Nat := D * 10 ^ (E - f).toNat
    if v == 0 then "0" else (if p.neg then "-" else "") ++ ⟨natDigits v⟩
  else
    renderScaled p.neg D (f - E).toNat

/-- Function `normalizeMobileSource` (lines 1108-1122): numeric cells are expanded
to plain decimal; text in scientific-notation shape is parsed as a number
and re-expanded; all other text passes through (trimmed). -/
def normalizeMobileSource (v : CellValue) : String :=
  match v with
  | .int n => numberToPlainString n
  | _ =>
    let text := jsTrim (jsStringOf v)
    match parseSci text.data with
    | some p => sciToPlainString p
    | none => text

/-! ## `extractValidMobiles` (lines 1083-1106) and helpers -/

/-- Pattern `INVALID_PATTERNS[0]`, `/^(\d)\1{9}$/`: ten identical digits. -/
def isAllSameDigits (l : List Char) : Bool :=
  match l with
  | [] => false
  | c :: rest => c.isDigit && l.length == 10 && rest.all (fun x => x == c)

/-- Function `isInvalidPattern` (lines 1129-1131): the four rejected patterns. -/
def isInvalidPattern (l : List Char) : Bool :=
  isAllSameDigits l || l == "0123456789".data || l == "1234567890".data || l == "9876543210".data

/-- Regex `/^[6-9]\d{9}$/` (line 1096): exactly ten digits, first in 6-9. -/
def matchesLocalShape (l : List Char) : Bool :=
  match l with
  | [] => false
  | c :: rest =>
    (c == '6' || c == '7' || c == '8' || c == '9') && rest.length == 9 && rest.all Char.isDigit

/-- The two candidate-normalization steps of lines 1093-1094: strip a `91`
country prefix from a 12-digit run, then a leading `0` from an 11-digit
run. -/
def stripCountryAndZero (num : List Char) : List Char :=
  let n1 := if num.length == 12 && num.take 2 == ['9', '1'] then num.drop 2 else num
  if n1.length == 11 && n1.take 1 == ['0'] then n1.drop 1 else n1

/-- Call `str.match(/\d{10,12}/g)` specialised to an all-digit subject string
(the code always matches on the digit-filtered string): the greedy leftmost
matcher chops successive runs of 12 digits, keeping a final shorter run only
when at least 10 digits remain.  `fuel` bounds the recursion by the string
length. -/
def digitRunsAux : Nat → List Char → List (List Char)
  | 0, _ => []
  | fuel + 1, s => if s.length < 10 then [] else s.take 12 :: digitRunsAux fuel (s.drop 12)

/-- All matches of `/\d{10,12}/g` on an all-digit string. -/
def digitRuns (s : List Char) : List (List Char) := digitRunsAux s.length s

/-- The candidate loop of lines 1092-1104: normalize each run, discard
candidates of wrong length, wrong first digit, or invalid pattern; prefix
the survivors with `+91`, skipping in-cell duplicates, stopping at
`maxNumbers`. -/
def collectMobiles (maxNumbers : Nat) : List (List Char) → List String → List String
  | [], acc => acc
  | r :: rs, acc =>
    let num := stripCountryAndZero r
    if num.length != 10 then collectMobiles maxNumbers rs acc
    else if !matchesLocalShape num then collectMobiles maxNumbers rs acc
    else if isInvalidPattern num then collectMobiles maxNumbers rs acc
    else
      let cleaned : String := ⟨'+' :: '9' :: '1' :: num⟩
      if cleaned ∈ acc then collectMobiles maxNumbers rs acc
      else
        let acc' := acc ++ [cleaned]
        if maxNumbers ≤ acc'.length then acc' else collectMobiles maxNumbers rs acc'

/-- Function `extractValidMobiles` (lines 1083-1106). -/
def extractValidMobiles (v : CellValue) (maxNumbers : Nat) : List String :=
  let str := digitsOnly (normalizeMobileSource v)
  collectMobiles maxNumbers (digitRuns str.data) []

/-! ## `cleanMobileDetailed` (lines 1052-1081) and `cleanMobile` -/

/-- The `reason` field of `cleanMobileDetailed`'s result. -/
inductive Reason where
  | valid : Reason
  | invalidPattern : Reason
  | invalidLength : Reason
  | empty : Reason
deriving DecidableEq, Repr

/-- Result record of `cleanMobileDetailed`. -/
structure CleanDetail where
  cleaned : Option String
  cleanedNumbers : List String
  reason : Reason
deriving DecidableEq, Repr

/-- The `hasTenDigitLike` check of lines 1073-1078: some 10-12 digit run
normalizes to exactly ten digits. -/
def hasTenDigitLike (runs : List (List Char)) : Bool :=
  runs.any (fun r => (stripCountryAndZero r).length == 10)

/-- Function `cleanMobileDetailed` (lines 1052-1081).  `value === null || value ===
undefined || value === ''` is the `empty` guard; otherwise the outcome is
`valid` with the extracted numbers, or classified as `invalidPattern` /
`invalidLength` from the shape of the digit runs. -/
def cleanMobileDetailed (v : CellValue) : CleanDetail :=
  if v = .null ∨ v = .str "" then ⟨none, [], .empty⟩
  else
    match extractValidMobiles v 2 with
    | m :: rest => ⟨some m, m :: rest, .valid⟩
    | [] =>
      let str := digitsOnly (normalizeMobileSource v)
      if str = "" then ⟨none, [], .invalidLength⟩
      else
        let runs := digitRuns str.data
        if runs = [] then ⟨none, [], .invalidLength⟩
        else if hasTenDigitLike runs then ⟨none, [], .invalidPattern⟩
        else ⟨none, [], .invalidLength⟩

/-- Function `cleanMobile` (lines 1043-1050); the `trackStats` statistics side
effect is not modelled (it only mutates counters already covered by the
pipeline model). -/
def cleanMobile (v : CellValue) : Option String :=
  (cleanMobileDetailed v).cleaned

/-! ## `parseLine` (lines 1147-1170): delimiter splitting with quoted
fields

The imperative loop accumulates the current field in `cur` and finished
fields in `out`; the functional embedding builds the same list of fields by
consing the current character onto the head field of the recursive result
(`consHead`), starting a fresh head field at each top-level delimiter. -/

/-- Prepend a character to the first field of a field list. -/
def consHead (c : Char) : List (List Char) → List (List Char)
  | [] => [[c]]
  | f :: fs => (c :: f) :: fs

/-- The character loop of `parseLine` (lines 1150-1168): `inQ` is the
`inQuotes` flag; a `""` while in quotes emits a literal quote, any other
quote toggles the flag and is dropped, and the delimiter splits only
outside quotes. -/
def parseRun (delim : Char) : Bool → List Char → List (List Char)
  | _, [] => [[]]
  | true, '"' :: '"' :: rest => consHead '"' (parseRun delim true rest)
  | true, '"' :: rest => parseRun delim false rest
  | false, '"' :: rest => parseRun delim true rest
  | inQ, c :: rest =>
    if c == delim && !inQ then [] :: parseRun delim inQ rest
    else consHead c (parseRun delim inQ rest)

/-- Drop one leading double quote if present. -/
def dropLeadQuote : List Char → List Char
  | '"' :: r => r
  | f => f

/-- Call `s.replace(/^"|"$/g, '')` (line 1169): remove one leading and one
trailing double quote, independently. -/
def jsStripEndQuotes (f : List Char) : List Char :=
  (dropLeadQuote (dropLeadQuote f).reverse).reverse

/-- The per-field post-processing of line 1169: strip end quotes, then
`trim()`. -/
def fieldFinish (f : List Char) : List Char := trimChars (jsStripEndQuotes f)

/-- Function `parseLine` (lines 1147-1170). -/
def parseLine (line : String) (delim : Char) : List String :=
  (parseRun delim false line.data).map (fun f => (⟨fieldFinish f⟩ : String))

/-- Function `detectDelimiter` (lines 1133-1145): count occurrences of each
candidate, highest count wins, ties resolved by candidate order. -/
def detectDelimiter (sample : String) : Char :=
  let count := fun (c : Char) => (sample.data.filter (fun x => x == c)).length
  let pick := fun (best : Char × Int) (c : Char) =>
    if (count c : Int) > best.2 then (c, (count c : Int)) else best
  ([',', '\t', ';', '|'].foldl pick (',', -1)).1

/-! ### Spec-side description of the parser, for the field-trimming claim

The specification describes each produced field as "the raw field content
with a single pair of enclosing quotes and leading/trailing whitespace
trimmed".  `rawSplitRun` splits a line at exactly the parser's top-level
delimiter positions but keeps every character of each field verbatim, and
`claimedParseLine` applies the spec's described transformation to those raw
fields. -/

/-- Split a line at top-level delimiters (tracking quote parity) keeping
all characters, so each output entry is the raw content of one field. -/
def rawSplitRun (delim : Char) : Bool → List Char → List (List Char)
  | _, [] => [[]]
  | inQ, '"' :: rest => consHead '"' (rawSplitRun delim (!inQ) rest)
  | inQ, c :: rest =>
    if c == delim && !inQ then [] :: rawSplitRun delim inQ rest
    else consHead c (rawSplitRun delim inQ rest)

/-- The raw (verbatim) fields of a line. -/
def rawFields (line : String) (delim : Char) : List (List Char) :=
  rawSplitRun delim false line.data

/-- Remove a single pair of enclosing double quotes, when both are
present (spec wording). -/
def stripOneEnclosingPair (f : List Char) : List Char :=
  if 2 ≤ f.length ∧ f.head? = some '"' ∧ f.getLast? = some '"' then
    (f.drop 1).dropLast
  else f

/-- Modelled from the spec: "Each field is trimmed of a single pair of
enclosing quotes and leading/trailing whitespace" applied to a raw field. -/
def claimedFieldOf (f : List Char) : String := ⟨trimChars (stripOneEnclosingPair f)⟩

/-- Modelled from the spec: the parser's claimed behaviour — split into raw
fields, then trim one enclosing quote pair and surrounding whitespace from
each. -/
def claimedParseLine (line : String) (delim : Char) : List String :=
  (rawFields line delim).map claimedFieldOf

/-- The in-field quote machine: the content the parser's character loop
accumulates for a single field whose raw text is `l`, starting with quote
flag `inQ`. -/
def unquote : Bool → List Char → List Char
  | _, [] => []
  | true, '"' :: '"' :: rest => '"' :: unquote true rest
  | true, '"' :: rest => unquote false rest
  | false, '"' :: rest => unquote true rest
  | inQ, c :: rest => c :: unquote inQ rest

/-- Apply the in-field quote machine to every raw field: the head field
starts from the given quote flag, later fields start outside quotes. -/
def unquoteFields (inQ : Bool) : List (List Char) → List (List Char)
  | [] => []
  | f :: fs => unquote inQ f :: fs.map (unquote false)

/-- A raw field is quote-free. -/
def quoteFree (f : List Char) : Bool := f.all (fun c => !(c == '"'))

/-- A raw field in which double quotes occur at most as one enclosing
pair: either no quotes at all, or `"…"` around quote-free content. -/
def goodRawField (f : List Char) : Bool :=
  quoteFree f ||
    (decide (2 ≤ f.length) && f.head? == some '"' && f.getLast? == some '"' &&
      quoteFree ((f.drop 1).dropLast))

/-! ## `assessSheetSize` (lines 1543-1571) -/

/-- The decoded `!ref` extent of a sheet: start/end row and column indices
(as produced by the spreadsheet library's `decode_range`). -/
structure SheetRange where
  sr : Nat
  sc : Nat
  er : Nat
  ec : Nat
deriving DecidableEq, Repr

/-- Row count `range.e.r - range.s.r + 1`. -/
def sheetRowCount (rg : SheetRange) : Int := (rg.er : Int) - rg.sr + 1

/-- Column count `range.e.c - range.s.c + 1`. -/
def sheetColCount (rg : SheetRange) : Int := (rg.ec : Int) - rg.sc + 1

/-- Estimated cells `rowCount * colCount`. -/
def sheetCellCount (rg : SheetRange) : Int := sheetRowCount rg * sheetColCount rg

/-- The `{ error?, warning? }` record returned by `assessSheetSize`. -/
structure SheetAssessment where
  errorMsg : Option String
  warningMsg : Option String
deriving DecidableEq, Repr

/-- Function `assessSheetSize` (lines 1543-1571): a sheet with no `!ref` is an
error; then the row, column and cell ceilings are checked in order; an
accepted sheet gets a warning when the row count reaches the large-sheet
threshold. -/
def assessSheetSize (ref : Option SheetRange) : SheetAssessment :=
  match ref with
  | none => ⟨some "Selected sheet is empty", none⟩
  | some rg =>
    if sheetRowCount rg > (MAX_SHEET_ROWS : Int) then
      ⟨some "Sheet has too many rows", none⟩
    else if sheetColCount rg > (MAX_SHEET_COLUMNS : Int) then
      ⟨some "Sheet has too many columns", none⟩
    else if sheetCellCount rg > (MAX_SHEET_CELLS : Int) then
      ⟨some "Sheet is too large", none⟩
    else if sheetRowCount rg ≥ (LARGE_SHEET_WARNING_ROWS : Int) then
      ⟨none, some "Large sheet detected. Processing may take longer."⟩
    else ⟨none, none⟩

/-! ## The row-processing pipeline

`cleanAndDownload` (lines 692-1029) and `cleanAndDownloadCsvStreaming`
(lines 1275-1471) share their per-row logic: scan the selected columns of a
data row with `cleanMobileDetailed`, collect statistics and bounded audit
samples, dedup the row's numbers against the run-wide `seenNumbers` set and
accumulate the export of the chosen mode.  The embedding threads the
mutable run state explicitly and processes the data rows (the rows strictly
after the header row) one by one; browser yields, progress reporting and
the final serialization are outside the model. -/

/-- The four export modes (line 277). -/
inductive ExportMode where
  | full : ExportMode
  | unique : ExportMode
  | mobileName : ExportMode
  | keepAll : ExportMode
deriving DecidableEq, Repr

/-- Flag `needsFullRows` (line 729): modes that materialize whole cleaned rows. -/
def needsFullRowsOf (m : ExportMode) : Bool := m == .full || m == .keepAll

/-- The `stats` counters (lines 261-267). -/
structure Stats where
  total : Nat
  valid : Nat
  duplicates : Nat
  invalidPattern : Nat
  invalidLength : Nat
deriving DecidableEq, Repr

/-- One entry of `statDownloads.valid`. -/
structure ValidSample where
  row : Nat
  column : String
  original : String
  cleaned : String
deriving DecidableEq, Repr

/-- One entry of `statDownloads.duplicates`. -/
structure DupSample where
  row : Nat
  mobile : String
deriving DecidableEq, Repr

/-- One entry of `statDownloads.invalidPattern` / `invalidLength`. -/
structure InvSample where
  row : Nat
  column : String
  value : String
deriving DecidableEq, Repr

/-- The four bounded audit-sample buckets (`statDownloads`, lines 269-274). -/
structure Buckets where
  valid : List ValidSample
  duplicates : List DupSample
  invalidPattern : List InvSample
  invalidLength : List InvSample
deriving DecidableEq, Repr

/-- Function `addLimitedStatRow` (lines 1268-1273): push only while the bucket is
below its capacity. -/
def pushLimited {α : Type} (bucket : List α) (x : α) : List α :=
  if bucket.length < MAX_STAT_DOWNLOAD_ROWS then bucket ++ [x] else bucket

/-- The configuration a clean-and-export run reads from the component
state: export mode, selected mobile columns, headers and name column. -/
structure RunConfig where
  mode : ExportMode
  selectedColumns : List Nat
  headers : List String
  selectedNameColumn : Option Nat
deriving DecidableEq, Repr

/-- Expression `this.headers[col] || 'Column_N'` of line 773. -/
def headerNameAt (cfg : RunConfig) (col : Nat) : String :=
  let h := cfg.headers.getD col ""
  if h == "" then "Column_" ++ toString (col + 1) else h

/-- Expression `String(row[col] ?? '')`: the original-value text stored in samples. -/
def displayOf : CellValue → String
  | .null => ""
  | c => jsStringOf c

/-- Join with a slash separator, i.e. `cleanedNumbers.join(' / ')` (line 771). -/
def joinWithSlash : List String → String
  | [] => ""
  | [s] => s
  | s :: rest => s ++ " / " ++ joinWithSlash rest

/-- Accumulator of the per-column loop (lines 768-805): the valid numbers
found so far in the row, the `perColumn` replacement texts, and the stats /
buckets threaded through. -/
structure ColScan where
  validMobiles : List String
  perColumn : List (Option String)
  stats : Stats
  buckets : Buckets
deriving DecidableEq, Repr

/-- One iteration of the per-column loop (lines 768-805) over column
`col`: classify the cell, extend `perColumn` (in full/keep-all modes),
accumulate valid numbers and update counters; audit samples are recorded
only when `fast` is off (in the in-memory path the streaming path records
them unconditionally, i.e. with `fast := false`). -/
def scanOneColumn (cfg : RunConfig) (fast : Bool) (rowNum : Nat) (cell : Nat → CellValue)
    (acc : ColScan) (col : Nat) : ColScan :=
  let v := cell col
  let detail := cleanMobileDetailed v
  let acc1 :=
    if needsFullRowsOf cfg.mode then
      { acc with perColumn := acc.perColumn ++
          [match detail.cleanedNumbers with
           | [] => none
           | nums => some (joinWithSlash nums)] }
    else acc
  let hname := headerNameAt cfg col
  match detail.cleanedNumbers with
  | [] =>
    if detail.reason = .invalidPattern then
      { acc1 with
        stats.invalidPattern := acc1.stats.invalidPattern + 1,
        buckets :=
          if fast then acc1.buckets
          else { acc1.buckets with
                 invalidPattern := pushLimited acc1.buckets.invalidPattern ⟨rowNum, hname, displayOf v⟩ } }
    else if detail.reason = .invalidLength then
      { acc1 with
        stats.invalidLength := acc1.stats.invalidLength + 1,
        buckets :=
          if fast then acc1.buckets
          else { acc1.buckets with
                 invalidLength := pushLimited acc1.buckets.invalidLength ⟨rowNum, hname, displayOf v⟩ } }
    else acc1
  | nums =>
    { acc1 with
      validMobiles := acc1.validMobiles ++ nums,
      buckets :=
        if fast then acc1.buckets
        else { acc1.buckets with
               valid := nums.foldl (fun b n => pushLimited b ⟨rowNum, hname, displayOf v, n⟩)
                 acc1.buckets.valid } }

/-- The whole per-column loop of one row. -/
def scanColumns (cfg : RunConfig) (fast : Bool) (rowNum : Nat) (cell : Nat → CellValue)
    (stats : Stats) (buckets : Buckets) : ColScan :=
  cfg.selectedColumns.foldl (scanOneColumn cfg fast rowNum cell) ⟨[], [], stats, buckets⟩

/-- JavaScript `Set.add` on a list kept duplicate-free in insertion order. -/
def insertUnique (l : List String) (x : String) : List String :=
  if x ∈ l then l else l ++ [x]

/-- Expression `Array.from(new Set(validMobiles))` (line 807): dedup preserving first
occurrences. -/
def jsSetDedup (l : List String) : List String := l.foldl insertUnique []

/-- Call `mobile.replace('+91', '')` (line 827): remove the first occurrence of
the substring `+91`. -/
def replacePlus91 : List Char → List Char
  | '+' :: '9' :: '1' :: rest => rest
  | c :: rest => c :: replacePlus91 rest
  | [] => []

/-- The digit-only canonical form used as dedup key. -/
def normalizedOf (s : String) : String := ⟨replacePlus91 s.data⟩

/-- Loop `while (row.length < headers.length) row.push('')`. -/
def padCells (row : List CellValue) (n : Nat) : List CellValue :=
  row ++ List.replicate (n - row.length) (.str "")

/-- The keep-all cell replacement (lines 810-812): write `perColumn[idx]`
into column `col` only when it is truthy. -/
def applyPerColumnKeepAll (cols : List Nat) (per : List (Option String))
    (row : List CellValue) : List CellValue :=
  (cols.zip per).foldl
    (fun r cp =>
      match cp.2 with
      | some p => if p == "" then r else r.set cp.1 (.str p)
      | none => r) row

/-- The full-mode cell replacement (lines 850-854): `perColumn[idx] ??
fallback`. -/
def applyPerColumnFull (cols : List Nat) (per : List (Option String)) (fallback : String)
    (row : List CellValue) : List CellValue :=
  (cols.zip per).foldl (fun r cp => r.set cp.1 (.str (cp.2.getD fallback))) row

/-- The run state of the in-memory path: dedup set, cleaned rows (body
only, excluding the header pushed before the loop), unique-number list,
name-number pairs, counters and buckets. -/
structure RunState where
  seenNumbers : List String
  cleanedRows : List (List CellValue)
  uniqueNumbers : List String
  mobileNamePairs : List (CellValue × String)
  stats : Stats
  buckets : Buckets
deriving DecidableEq, Repr

/-- The row used by the loop body: a copy padded to header width in
full/keep-all modes, the raw row otherwise (lines 757-760). -/
def rowForMode (cfg : RunConfig) (raw : List CellValue) : List CellValue :=
  if needsFullRowsOf cfg.mode then padCells raw cfg.headers.length else raw

/-- Expression `row[nameCol] || ''` captured before any cell mutation (line 763). -/
def nameOfRow (cfg : RunConfig) (row : List CellValue) : CellValue :=
  match cfg.selectedNameColumn with
  | some nc =>
    let c := (row.get? nc).getD .null
    if jsTruthy c then c else .str ""
  | none => .str ""

/-- One iteration of the in-memory data-row loop (lines 755-877, without
the exception recovery, which cannot fire in the total embedding). -/
def processRowMem (cfg : RunConfig) (fast : Bool) (rowNum : Nat) (raw : List CellValue)
    (st : RunState) : RunState :=
  let row := rowForMode cfg raw
  let cell := fun c => (row.get? c).getD CellValue.null
  let name := nameOfRow cfg row
  let scan := scanColumns cfg fast rowNum cell st.stats st.buckets
  let rowMobiles := jsSetDedup scan.validMobiles
  let st1 : RunState := { st with stats := scan.stats, buckets := scan.buckets }
  if cfg.mode = .keepAll then
    let row' := applyPerColumnKeepAll cfg.selectedColumns scan.perColumn row
    let st2 :=
      if 0 < rowMobiles.length then
        { st1 with stats.valid := st1.stats.valid + rowMobiles.length }
      else st1
    { st2 with cleanedRows := st2.cleanedRows ++ [row'] }
  else if rowMobiles = [] then st1
  else
    let unseen := rowMobiles.filter (fun m => normalizedOf m ∉ st1.seenNumbers)
    let dups := rowMobiles.filter (fun m => normalizedOf m ∈ st1.seenNumbers)
    if unseen = [] then
      { st1 with
        stats.duplicates := st1.stats.duplicates + 1,
        buckets :=
          if fast then st1.buckets
          else { st1.buckets with
                 duplicates := dups.foldl (fun b m => pushLimited b ⟨rowNum, m⟩)
                   st1.buckets.duplicates } }
    else
      { st1 with
        seenNumbers := unseen.foldl (fun s n => insertUnique s (normalizedOf n)) st1.seenNumbers,
        uniqueNumbers := st1.uniqueNumbers ++ unseen,
        cleanedRows :=
          if needsFullRowsOf cfg.mode then
            st1.cleanedRows ++
              [applyPerColumnFull cfg.selectedColumns scan.perColumn (unseen.headD "") row]
          else st1.cleanedRows,
        mobileNamePairs :=
          if cfg.mode = .mobileName then
            st1.mobileNamePairs ++ unseen.map (fun n => (name, n))
          else st1.mobileNamePairs,
        stats.valid := st1.stats.valid + unseen.length }

/-- The data-row loop of `cleanAndDownload`, rows numbered from `rowNum`
(the sample row labels; the source uses the absolute sheet index). -/
def runMemAux (cfg : RunConfig) (fast : Bool) : Nat → List (List CellValue) → RunState → RunState
  | _, [], st => st
  | i, r :: rs, st => runMemAux cfg fast (i + 1) rs (processRowMem cfg fast i r st)

/-- The state right after `resetStats()` (lines 1479-1494). -/
def initRunState : RunState := ⟨[], [], [], [], ⟨0, 0, 0, 0, 0⟩, ⟨[], [], [], []⟩⟩

/-- Check `totalRows >= FAST_MODE_ROWS` (line 744). -/
def fastModeFor (totalRows : Nat) : Bool := FAST_MODE_ROWS ≤ totalRows

/-- The in-memory run with an explicit fast-mode flag (`this.stats.total =
totalRows` is set before the loop, line 743). -/
def runMemWith (fast : Bool) (cfg : RunConfig) (rows : List (List CellValue)) : RunState :=
  runMemAux cfg fast 1 rows { initRunState with stats.total := rows.length }

/-- The in-memory clean-and-export run over the data rows (lines 717-886):
fast mode is derived from the row count. -/
def runMem (cfg : RunConfig) (rows : List (List CellValue)) : RunState :=
  runMemWith (fastModeFor rows.length) cfg rows

/-! ### The CSV streaming path (lines 1275-1471) -/

/-- Function `sanitizeForExcelCell` on text (lines 1172-1179): truncate to the
32767-character cell limit. -/
def sanitizeText (s : String) : String :=
  if 32767 < s.data.length then ⟨s.data.take 32767⟩ else s

/-- Test `/[",\n\r]/.test(text)` of line 1198. -/
def needsQuoting (l : List Char) : Bool :=
  l.any (fun c => c == '"' || c == ',' || c == '\n' || c == '\r')

/-- Call `text.replace(/"/g, '""')`. -/
def doubleQuotes (l : List Char) : List Char :=
  l.foldr (fun c acc => if c == '"' then '"' :: '"' :: acc else c :: acc) []

/-- Function `csvEscape` (lines 1196-1203). -/
def csvEscape (s : String) : String :=
  let t := (sanitizeText s).data
  if needsQuoting t then ⟨'"' :: (doubleQuotes t ++ ['"'])⟩ else ⟨t⟩

/-- Join `array.join(',')`. -/
def joinWithComma : List String → String
  | [] => ""
  | [s] => s
  | s :: rest => s ++ "," ++ joinWithComma rest

/-- Line building `row.map(v => csvEscape(v)).join(',') + CRLF` (lines 1390, 1439). -/
def csvRowLine (cells : List String) : String :=
  joinWithComma (cells.map csvEscape) ++ "\r\n"

/-- The streaming-run state: dedup set, the emitted data CSV lines (the
header line is written before the data rows and is not part of this
state), the exported-row counter, `dataRowsProcessed`, counters, buckets. -/
structure StreamState where
  seenNumbers : List String
  csvLines : List String
  exportRowCount : Nat
  dataRowsProcessed : Nat
  stats : Stats
  buckets : Buckets
deriving DecidableEq, Repr

/-- Keep-all replacement on a string row (lines 1386-1388). -/
def applyPerColumnKeepAllStr (cols : List Nat) (per : List (Option String))
    (row : List String) : List String :=
  (cols.zip per).foldl
    (fun r cp =>
      match cp.2 with
      | some p => if p == "" then r else r.set cp.1 p
      | none => r) row

/-- Full-mode replacement on a string row (lines 1436-1438). -/
def applyPerColumnFullStr (cols : List Nat) (per : List (Option String)) (fallback : String)
    (row : List String) : List String :=
  (cols.zip per).foldl (fun r cp => r.set cp.1 (cp.2.getD fallback)) row

/-- One parsed data row of the streaming loop (lines 1339-1441).  Audit
samples are recorded unconditionally here (there is no fast mode on this
path), hence `scanColumns` runs with `fast := false`. -/
def processRowStream (cfg : RunConfig) (rowNum : Nat) (rawRow : List String)
    (st : StreamState) : StreamState :=
  let st0 : StreamState :=
    { st with dataRowsProcessed := st.dataRowsProcessed + 1, stats.total := st.dataRowsProcessed + 1 }
  let row := rawRow ++ List.replicate (cfg.headers.length - rawRow.length) ""
  let cell := fun c =>
    match row.get? c with
    | some s => CellValue.str s
    | none => CellValue.null
  let name :=
    match cfg.selectedNameColumn with
    | some nc => row.getD nc ""
    | none => ""
  let scan := scanColumns cfg false rowNum cell st0.stats st0.buckets
  let rowMobiles := jsSetDedup scan.validMobiles
  let st1 : StreamState := { st0 with stats := scan.stats, buckets := scan.buckets }
  if cfg.mode = .keepAll then
    let row' := applyPerColumnKeepAllStr cfg.selectedColumns scan.perColumn row
    let st2 :=
      if 0 < rowMobiles.length then
        { st1 with stats.valid := st1.stats.valid + rowMobiles.length }
      else st1
    { st2 with csvLines := st2.csvLines ++ [csvRowLine row'],
               exportRowCount := st2.exportRowCount + 1 }
  else if rowMobiles = [] then st1
  else
    let unseen := rowMobiles.filter (fun m => normalizedOf m ∉ st1.seenNumbers)
    let dups := rowMobiles.filter (fun m => normalizedOf m ∈ st1.seenNumbers)
    if unseen = [] then
      { st1 with
        stats.duplicates := st1.stats.duplicates + 1,
        buckets := { st1.buckets with
                     duplicates := dups.foldl (fun b m => pushLimited b ⟨rowNum, m⟩)
                       st1.buckets.duplicates } }
    else
      let st2 : StreamState :=
        { st1 with
          seenNumbers := unseen.foldl (fun s n => insertUnique s (normalizedOf n)) st1.seenNumbers,
          stats.valid := st1.stats.valid + unseen.length }
      if cfg.mode = .unique then
        { st2 with csvLines := st2.csvLines ++ unseen.map (fun n => csvEscape n ++ "\r\n"),
                   exportRowCount := st2.exportRowCount + unseen.length }
      else if cfg.mode = .mobileName then
        { st2 with
          csvLines := st2.csvLines ++
            unseen.map (fun n => csvEscape name ++ "," ++ csvEscape n ++ "\r\n"),
          exportRowCount := st2.exportRowCount + unseen.length }
      else
        let row' := applyPerColumnFullStr cfg.selectedColumns scan.perColumn (unseen.headD "") row
        { st2 with csvLines := st2.csvLines ++ [csvRowLine row'],
                   exportRowCount := st2.exportRowCount + 1 }

/-- The streaming data-row loop. -/
def runStreamAux (cfg : RunConfig) : Nat → List (List String) → StreamState → StreamState
  | _, [], st => st
  | i, r :: rs, st => runStreamAux cfg (i + 1) rs (processRowStream cfg i r st)

/-- The streaming-run state right after `resetStats()`. -/
def initStreamState : StreamState := ⟨[], [], 0, 0, ⟨0, 0, 0, 0, 0⟩, ⟨[], [], [], []⟩⟩

/-- The streaming clean-and-export run over the parsed data rows (the rows
strictly after the header line). -/
def runStream (cfg : RunConfig) (rows : List (List String)) : StreamState :=
  runStreamAux cfg 1 rows initStreamState

/-! ## Shape of canonical numbers (claim C1) -/

/-- The canonical-number shape asserted by the specification: `+91`
followed by exactly ten digits, the first in 6-9, and the ten-digit part
matching none of the rejected patterns. -/
def localPartOk (ds : List Char) : Bool :=
  ds.length == 10 && ds.all Char.isDigit &&
    (match ds.head? with
     | some c => c == '6' || c == '7' || c == '8' || c == '9'
     | none => false) &&
    !isAllSameDigits ds && !(ds == "0123456789".data) && !(ds == "1234567890".data) &&
    !(ds == "9876543210".data)

/-- A string has canonical shape when it is `+91` followed by an accepted
ten-digit local part. -/
def canonicalShape (m : String) : Bool :=
  match m.data with
  | '+' :: '9' :: '1' :: ds => localPartOk ds
  | _ => false

theorem canonicalShape_mk (num : List Char) (hlen : num.length = 10)
    (hshape : matchesLocalShape num = true) (hpat : isInvalidPattern num = false) :
    canonicalShape ⟨'+' :: '9' :: '1' :: num⟩ = true := by
  cases num with
  | nil => simp at hlen
  | cons c rest =>
    show localPartOk (c :: rest) = true
    simp only [matchesLocalShape, Bool.and_eq_true] at hshape
    obtain ⟨⟨hc, hrest9⟩, hdig⟩ := hshape
    have hcd : c.isDigit = true := by
      simp only [Bool.or_eq_true, beq_iff_eq] at hc
      rcases hc with ((h | h) | h) | h <;> subst h <;> decide
    unfold isInvalidPattern at hpat
    simp only [Bool.or_eq_false_iff] at hpat
    simp only [localPartOk, Bool.and_eq_true, List.head?_cons, List.all_cons,
      Bool.not_eq_true']
    refine ⟨⟨⟨⟨⟨⟨?_, hcd, hdig⟩, hc⟩, hpat.1.1.1⟩, hpat.1.1.2⟩, hpat.1.2⟩, hpat.2⟩
    simpa using hlen

theorem collectMobiles_shape (maxN : Nat) (runs : List (List Char)) :
    ∀ (acc : List String), (∀ m ∈ acc, canonicalShape m = true) →
      ∀ m ∈ collectMobiles maxN runs acc, canonicalShape m = true := by
  induction runs with
  | nil => intro acc hacc m hm; simpa [collectMobiles] using hacc m (by simpa [collectMobiles] using hm)
  | cons r rs ih =>
    intro acc hacc m hm
    simp only [collectMobiles] at hm
    by_cases h1 : ((stripCountryAndZero r).length != 10) = true
    · rw [if_pos h1] at hm; exact ih acc hacc m hm
    · rw [if_neg h1] at hm
      by_cases h2 : (!matchesLocalShape (stripCountryAndZero r)) = true
      · rw [if_pos h2] at hm; exact ih acc hacc m hm
      · rw [if_neg h2] at hm
        by_cases h3 : isInvalidPattern (stripCountryAndZero r) = true
        · rw [if_pos h3] at hm; exact ih acc hacc m hm
        · rw [if_neg h3] at hm
          have hlen : (stripCountryAndZero r).length = 10 := by
            simpa [bne, Bool.not_eq_true, beq_iff_eq] using h1
          have hshape : matchesLocalShape (stripCountryAndZero r) = true := by
            simpa using h2
          have hclean : canonicalShape ⟨'+' :: '9' :: '1' :: stripCountryAndZero r⟩ = true :=
            canonicalShape_mk _ hlen hshape (by simpa using h3)
          by_cases h4 : (⟨'+' :: '9' :: '1' :: stripCountryAndZero r⟩ : String) ∈ acc
          · rw [if_pos h4] at hm; exact ih acc hacc m hm
          · rw [if_neg h4] at hm
            have hacc' : ∀ x ∈ acc ++ [(⟨'+' :: '9' :: '1' :: stripCountryAndZero r⟩ : String)],
                canonicalShape x = true := by
              intro x hx
              rcases List.mem_append.mp hx with hx | hx
              · exact hacc x hx
              · simp only [List.mem_singleton] at hx; subst hx; exact hclean
            by_cases h5 : maxN ≤ (acc ++ [(⟨'+' :: '9' :: '1' :: stripCountryAndZero r⟩ : String)]).length
            · rw [if_pos h5] at hm; exact hacc' m hm
            · rw [if_neg h5] at hm; exact ih _ hacc' m hm

/-- Every number produced by `extractValidMobiles` has canonical shape. -/
theorem extractValidMobiles_shape (v : CellValue) (maxN : Nat) :
    ∀ m ∈ extractValidMobiles v maxN, canonicalShape m = true := by
  intro m hm
  exact collectMobiles_shape maxN _ [] (by simp) m hm

/-- Field `cleanedNumbers` of `cleanMobileDetailed` are exactly
`extractValidMobiles v 2` when non-empty, and `cleaned` is their head. -/
theorem cleanMobileDetailed_cleanedNumbers (v : CellValue) :
    ∀ m ∈ (cleanMobileDetailed v).cleanedNumbers, m ∈ extractValidMobiles v 2 := by
  intro m hm
  unfold cleanMobileDetailed at hm
  by_cases hc : v = .null ∨ v = .str ""
  · rw [if_pos hc] at hm; simp at hm
  · rw [if_neg hc] at hm
    rcases hx : extractValidMobiles v 2 with _ | ⟨a, rest⟩
    · rw [hx] at hm
      simp only at hm
      split_ifs at hm <;> simp_all
    · rw [hx] at hm
      simpa using hm

theorem cleanMobile_mem_extract (v : CellValue) (s : String) (h : cleanMobile v = some s) :
    s ∈ extractValidMobiles v 2 := by
  unfold cleanMobile cleanMobileDetailed at h
  by_cases hc : v = .null ∨ v = .str ""
  · rw [if_pos hc] at h; simp at h
  · rw [if_neg hc] at h
    rcases hx : extractValidMobiles v 2 with _ | ⟨a, rest⟩
    · rw [hx] at h
      simp only at h
      split_ifs at h
    · rw [hx] at h
      simp only [Option.some.injEq] at h
      subst h
      simp [hx]

/-- C1: every canonical number string returned by the validator
(`extractValidMobiles`, and hence the first result returned by
`cleanMobile`) is `+91` followed by exactly ten digits whose first digit is
in 6-9 and whose ten-digit part matches none of the rejected patterns. -/
theorem claim_C1_canonical_shape (v : CellValue) (m : String) :
    (m ∈ extractValidMobiles v 2 → canonicalShape m = true) ∧
    (cleanMobile v = some m → canonicalShape m = true) := by
  constructor
  · exact fun h => extractValidMobiles_shape v 2 m h
  · intro h
    exact extractValidMobiles_shape v 2 m (cleanMobile_mem_extract v m h)

/-- Witness for C1 at a concrete cell value. -/
theorem claim_C1_witness :
    ("+919818202888" ∈ extractValidMobiles (.str "98182 02888") 2) ∧
    canonicalShape "+919818202888" = true :=
  ⟨by decide, (claim_C1_canonical_shape (.str "98182 02888") "+919818202888").1 (by decide)⟩

/-- C4: a text value in scientific-notation shape is parsed as a number
and re-expanded to plain decimal before digit extraction, so
`cleanMobile("9.19818202888E+11")` is `+919818202888`. -/
theorem claim_C4_scientific_notation :
    normalizeMobileSource (.str "9.19818202888E+11") = "919818202888" ∧
    cleanMobile (.str "9.19818202888E+11") = some "+919818202888" := by
  decide

/-- C10: the `empty` outcome occurs exactly for `null`/`undefined` and the
empty string; the other falsy values `0` and `false` instead fall through
digit extraction and are classified `invalidLength`. -/
theorem claim_C10_empty_classification :
    (∀ v : CellValue, (cleanMobileDetailed v).reason = .empty ↔ (v = .null ∨ v = .str "")) ∧
    (cleanMobileDetailed (.int 0)).reason = .invalidLength ∧
    (cleanMobileDetailed (.bool false)).reason = .invalidLength := by
  refine ⟨fun v => ⟨fun h => ?_, fun hc => by simp [cleanMobileDetailed, if_pos hc]⟩, by decide, by decide⟩
  by_cases hc : v = .null ∨ v = .str ""
  · exact hc
  · exfalso
    unfold cleanMobileDetailed at h
    rw [if_neg hc] at h
    rcases hx : extractValidMobiles v 2 with _ | ⟨a, rest⟩
    · rw [hx] at h
      simp only at h
      split_ifs at h
    · rw [hx] at h
      simp at h

/-! ## Failure classification (claim C2) -/

theorem digitRuns_eq_nil_iff (s : List Char) : digitRuns s = [] ↔ s.length < 10 := by
  constructor
  · intro h
    by_contra hlen
    push_neg at hlen
    unfold digitRuns at h
    rcases hf : s.length with _ | n
    · omega
    · rw [hf] at h
      unfold digitRunsAux at h
      rw [if_neg (by omega)] at h
      simp at h
  · intro h
    unfold digitRuns
    rcases hf : s.length with _ | n
    · rfl
    · show digitRunsAux (n + 1) s = []
      unfold digitRunsAux
      rw [if_pos h]

/-- C2: for a non-empty cell value from which the validator extracts no
canonical numbers, a digit string with no 10-12-digit run yields
`invalidLength`, while the existence of a run normalizing to ten digits
yields `invalidPattern`. -/
theorem claim_C2_failure_classification (v : CellValue)
    (hne : ¬(v = .null ∨ v = .str ""))
    (hempty : extractValidMobiles v 2 = []) :
    ((digitsOnly (normalizeMobileSource v)).data.length < 10 →
      (cleanMobileDetailed v).reason = .invalidLength) ∧
    (hasTenDigitLike (digitRuns (digitsOnly (normalizeMobileSource v)).data) = true →
      (cleanMobileDetailed v).reason = .invalidPattern) := by
  constructor
  · intro hlen
    have hruns : digitRuns (digitsOnly (normalizeMobileSource v)).data = [] :=
      (digitRuns_eq_nil_iff _).mpr hlen
    unfold cleanMobileDetailed
    rw [if_neg hne]
    simp only [hempty]
    by_cases hs : digitsOnly (normalizeMobileSource v) = ""
    · rw [if_pos hs]
    · rw [if_neg hs, if_pos hruns]
  · intro hpat
    have hruns : digitRuns (digitsOnly (normalizeMobileSource v)).data ≠ [] := by
      intro hnil
      rw [hnil] at hpat
      simp [hasTenDigitLike] at hpat
    have hs : digitsOnly (normalizeMobileSource v) ≠ "" := by
      intro hnil
      apply hruns
      rw [hnil]
      rfl
    unfold cleanMobileDetailed
    rw [if_neg hne]
    simp only [hempty]
    rw [if_neg hs, if_neg hruns, if_pos hpat]

/-- Witness for C2 at a concrete too-short value. -/
theorem claim_C2_witness :
    (¬(CellValue.str "12345" = .null ∨ CellValue.str "12345" = .str "")) ∧
    extractValidMobiles (.str "12345") 2 = [] ∧
    (cleanMobileDetailed (.str "12345")).reason = .invalidLength := by
  refine ⟨by decide, by decide, ?_⟩
  exact (claim_C2_failure_classification (.str "12345") (by decide) (by decide)).1 (by decide)

/-! ## The sheet-size guard (claim C7) -/

/-- C7: `assessSheetSize` errors exactly on a missing extent or an
exceeded row / column / cell ceiling; a missing extent is always an error;
an accepted sheet is warned exactly when its row count reaches the
large-sheet threshold, which lies strictly below the rejection ceiling. -/
theorem claim_C7_sheet_size_guard :
    ((assessSheetSize none).errorMsg.isSome = true) ∧
    (∀ rg : SheetRange,
      ((assessSheetSize (some rg)).errorMsg.isSome = true ↔
        (sheetRowCount rg > (MAX_SHEET_ROWS : Int) ∨
          sheetColCount rg > (MAX_SHEET_COLUMNS : Int) ∨
          sheetCellCount rg > (MAX_SHEET_CELLS : Int))) ∧
      ((assessSheetSize (some rg)).errorMsg = none →
        ((assessSheetSize (some rg)).warningMsg.isSome = true ↔
          sheetRowCount rg ≥ (LARGE_SHEET_WARNING_ROWS : Int)))) ∧
    LARGE_SHEET_WARNING_ROWS < MAX_SHEET_ROWS := by
  refine ⟨rfl, fun rg => ⟨?_, ?_⟩, by decide⟩
  · simp only [assessSheetSize]
    split_ifs with h1 h2 h3 h4 <;> simp_all
  · intro herr
    simp only [assessSheetSize] at herr ⊢
    split_ifs at herr ⊢ with h1 h2 h3 h4 <;> simp_all

/-- Witness for C7: a 1x1 sheet is accepted without a warning. -/
theorem claim_C7_witness :
    (assessSheetSize (some ⟨0, 0, 0, 0⟩)).warningMsg.isSome = true ↔
      sheetRowCount ⟨0, 0, 0, 0⟩ ≥ (LARGE_SHEET_WARNING_ROWS : Int) :=
  (claim_C7_sheet_size_guard.2.1 ⟨0, 0, 0, 0⟩).2 (by decide)

/-! ## The line parser: correspondence with the spec's field description
(claim C9) -/

theorem consHead_ne_nil (c : Char) (L : List (List Char)) : consHead c L ≠ [] := by
  cases L <;> simp [consHead]

theorem parseRun_nil (delim : Char) (inQ : Bool) : parseRun delim inQ [] = [[]] := by
  cases inQ <;> rfl

theorem rawSplitRun_nil (delim : Char) (inQ : Bool) : rawSplitRun delim inQ [] = [[]] := by
  cases inQ <;> rfl

theorem unquote_nil (inQ : Bool) : unquote inQ [] = [] := by
  cases inQ <;> rfl

theorem rawSplitRun_quote (delim : Char) (inQ : Bool) (rest : List Char) :
    rawSplitRun delim inQ ('"' :: rest) = consHead '"' (rawSplitRun delim (!inQ) rest) := by
  rw [rawSplitRun]

theorem rawSplitRun_cons_of_ne (delim c : Char) (hc : c ≠ '"') (inQ : Bool) (rest : List Char) :
    rawSplitRun delim inQ (c :: rest) =
      if c == delim && !inQ then [] :: rawSplitRun delim inQ rest
      else consHead c (rawSplitRun delim inQ rest) := by
  rw [rawSplitRun]
  exact fun h => hc h

theorem parseRun_quote_quote (delim : Char) (rest : List Char) :
    parseRun delim true ('"' :: '"' :: rest) = consHead '"' (parseRun delim true rest) := by
  rw [parseRun]

theorem parseRun_true_quote (delim : Char) (rest : List Char) (hne : rest.head? ≠ some '"') :
    parseRun delim true ('"' :: rest) = parseRun delim false rest := by
  rw [parseRun]
  intro r h
  exact hne (by rw [h]; rfl)

theorem parseRun_false_quote (delim : Char) (rest : List Char) :
    parseRun delim false ('"' :: rest) = parseRun delim true rest := by
  rw [parseRun]

theorem parseRun_cons_of_ne (delim c : Char) (hc : c ≠ '"') (inQ : Bool) (rest : List Char) :
    parseRun delim inQ (c :: rest) =
      if c == delim && !inQ then [] :: parseRun delim inQ rest
      else consHead c (parseRun delim inQ rest) := by
  rw [parseRun]
  · exact fun _ _ h _ => hc h
  · exact fun _ h => hc h
  · exact fun _ h => hc h

theorem unquote_quote_quote (rest : List Char) :
    unquote true ('"' :: '"' :: rest) = '"' :: unquote true rest := by
  rw [unquote]

theorem unquote_true_quote (rest : List Char) (hne : rest.head? ≠ some '"') :
    unquote true ('"' :: rest) = unquote false rest := by
  rw [unquote]
  intro r h
  exact hne (by rw [h]; rfl)

theorem unquote_false_quote (rest : List Char) :
    unquote false ('"' :: rest) = unquote true rest := by
  rw [unquote]

theorem unquote_cons_of_ne (c : Char) (hc : c ≠ '"') (inQ : Bool) (rest : List Char) :
    unquote inQ (c :: rest) = c :: unquote inQ rest := by
  rw [unquote]
  · exact fun _ _ h _ => hc h
  · exact fun _ h => hc h
  · exact fun _ h => hc h

theorem rawSplitRun_ne_nil (delim : Char) (inQ : Bool) (cs : List Char) :
    rawSplitRun delim inQ cs ≠ [] := by
  induction cs generalizing inQ with
  | nil => rw [rawSplitRun_nil]; simp
  | cons c rest ih =>
    by_cases hc : c = '"'
    · subst hc
      rw [rawSplitRun_quote]
      exact consHead_ne_nil _ _
    · rw [rawSplitRun_cons_of_ne delim c hc]
      by_cases hg : (c == delim && !inQ) = true
      · rw [if_pos hg]; simp
      · rw [if_neg hg]; exact consHead_ne_nil _ _

theorem rawSplitRun_first_head (delim : Char) (inQ : Bool) (cs : List Char)
    (f : List Char) (fs : List (List Char)) (h : rawSplitRun delim inQ cs = f :: fs) :
    f.head? = none ∨ f.head? = cs.head? := by
  cases cs with
  | nil =>
    rw [rawSplitRun_nil] at h
    cases h
    simp
  | cons c rest =>
    by_cases hc : c = '"'
    · subst hc
      rw [rawSplitRun_quote] at h
      rcases hL : rawSplitRun delim (!inQ) rest with _ | ⟨g, gs⟩
      · exact absurd hL (rawSplitRun_ne_nil _ _ _)
      · rw [hL] at h
        simp only [consHead] at h
        cases h
        simp
    · rw [rawSplitRun_cons_of_ne delim c hc] at h
      by_cases hg : (c == delim && !inQ) = true
      · rw [if_pos hg] at h
        cases h
        simp
      · rw [if_neg hg] at h
        rcases hL : rawSplitRun delim inQ rest with _ | ⟨g, gs⟩
        · exact absurd hL (rawSplitRun_ne_nil _ _ _)
        · rw [hL] at h
          simp only [consHead] at h
          cases h
          simp

theorem parseRun_eq_unquoteFields (delim : Char) (inQ : Bool) (cs : List Char) :
    parseRun delim inQ cs = unquoteFields inQ (rawSplitRun delim inQ cs) := by
  induction inQ, cs using parseRun.induct delim with
  | case1 inQ => rw [parseRun_nil, rawSplitRun_nil]; cases inQ <;> rfl
  | case2 rest ih =>
    rcases hL : rawSplitRun delim true rest with _ | ⟨f, fs⟩
    · exact absurd hL (rawSplitRun_ne_nil _ _ _)
    · have h1 : rawSplitRun delim true ('"' :: '"' :: rest) = ('"' :: '"' :: f) :: fs := by
        rw [rawSplitRun_quote, rawSplitRun_quote]
        simp only [Bool.not_true, Bool.not_false]
        rw [hL]
        rfl
      rw [parseRun_quote_quote, ih, hL, h1]
      simp only [unquoteFields, unquote_quote_quote, consHead]
  | case3 rest hne ih =>
    have hrh : rest.head? ≠ some '"' := by
      cases rest with
      | nil => simp
      | cons a r =>
        intro hcon
        simp only [List.head?_cons, Option.some.injEq] at hcon
        exact hne r (by rw [hcon])
    rcases hL : rawSplitRun delim false rest with _ | ⟨f, fs⟩
    · exact absurd hL (rawSplitRun_ne_nil _ _ _)
    · have hfh : f.head? ≠ some '"' := by
        rcases rawSplitRun_first_head delim false rest f fs hL with h | h
        · simp [h]
        · rw [h]; exact hrh
      have h1 : rawSplitRun delim true ('"' :: rest) = ('"' :: f) :: fs := by
        rw [rawSplitRun_quote]
        simp only [Bool.not_true]
        rw [hL]
        rfl
      rw [parseRun_true_quote delim rest hrh, ih, hL, h1]
      simp only [unquoteFields]
      rw [unquote_true_quote f hfh]
  | case4 rest ih =>
    rcases hL : rawSplitRun delim true rest with _ | ⟨f, fs⟩
    · exact absurd hL (rawSplitRun_ne_nil _ _ _)
    · have h1 : rawSplitRun delim false ('"' :: rest) = ('"' :: f) :: fs := by
        rw [rawSplitRun_quote]
        simp only [Bool.not_false]
        rw [hL]
        rfl
      rw [parseRun_false_quote, ih, hL, h1]
      simp only [unquoteFields]
      rw [unquote_false_quote]
  | case5 inQ c rest h1 h2 h3 hg ih =>
    have hcne : c ≠ '"' := by
      intro hcq
      cases inQ
      · exact h3 rfl hcq
      · exact h2 rfl hcq
    have hinq : inQ = false := by
      rcases Bool.and_eq_true _ _ |>.mp hg with ⟨_, hn⟩
      simpa using hn
    subst hinq
    rcases hL : rawSplitRun delim false rest with _ | ⟨f, fs⟩
    · exact absurd hL (rawSplitRun_ne_nil _ _ _)
    · have h1' : rawSplitRun delim false (c :: rest) = [] :: f :: fs := by
        rw [rawSplitRun_cons_of_ne delim c hcne, if_pos hg, hL]
      rw [parseRun_cons_of_ne delim c hcne, if_pos hg, ih, hL, h1']
      simp only [unquoteFields, unquote_nil, List.map_cons]
  | case6 inQ c rest h1 h2 h3 hg ih =>
    have hcne : c ≠ '"' := by
      intro hcq
      cases inQ
      · exact h3 rfl hcq
      · exact h2 rfl hcq
    rcases hL : rawSplitRun delim inQ rest with _ | ⟨f, fs⟩
    · exact absurd hL (rawSplitRun_ne_nil _ _ _)
    · have h1' : rawSplitRun delim inQ (c :: rest) = (c :: f) :: fs := by
        rw [rawSplitRun_cons_of_ne delim c hcne, if_neg hg, hL]
        rfl
      rw [parseRun_cons_of_ne delim c hcne, if_neg hg, ih, hL, h1']
      simp only [unquoteFields, consHead]
      rw [unquote_cons_of_ne c hcne]

theorem dropLeadQuote_of_ne (l : List Char) (h : l.head? ≠ some '"') : dropLeadQuote l = l := by
  cases l with
  | nil => rfl
  | cons a r =>
    rw [dropLeadQuote]
    intro r1 hr
    cases hr
    simp at h

theorem quoteFree_head (l : List Char) (h : quoteFree l = true) : l.head? ≠ some '"' := by
  cases l with
  | nil => simp
  | cons a r =>
    simp only [quoteFree, List.all_cons, Bool.and_eq_true] at h
    intro hc
    simp only [List.head?_cons, Option.some.injEq] at hc
    rw [hc] at h
    simp at h

theorem quoteFree_reverse (l : List Char) : quoteFree l.reverse = quoteFree l := by
  simp [quoteFree, List.all_reverse]

theorem jsStripEndQuotes_of_quoteFree (f : List Char) (h : quoteFree f = true) :
    jsStripEndQuotes f = f := by
  unfold jsStripEndQuotes
  rw [dropLeadQuote_of_ne f (quoteFree_head f h),
    dropLeadQuote_of_ne f.reverse (quoteFree_head _ (by rw [quoteFree_reverse]; exact h)),
    List.reverse_reverse]

theorem unquote_of_quoteFree (f : List Char) (h : quoteFree f = true) (inQ : Bool) :
    unquote inQ f = f := by
  induction f generalizing inQ with
  | nil => exact unquote_nil inQ
  | cons a r ih =>
    simp only [quoteFree, List.all_cons, Bool.and_eq_true] at h
    have ha : a ≠ '"' := by
      intro hc
      have h1 := h.1
      rw [hc] at h1
      simp at h1
    rw [unquote_cons_of_ne a ha, ih (by simp [quoteFree, h.2])]

theorem unquote_true_append_quote (mid : List Char) (h : quoteFree mid = true) :
    unquote true (mid ++ ['"']) = mid := by
  induction mid with
  | nil =>
    rw [List.nil_append]
    rw [unquote_true_quote [] (by simp)]
    exact unquote_nil false
  | cons a r ih =>
    simp only [quoteFree, List.all_cons, Bool.and_eq_true] at h
    have ha : a ≠ '"' := by
      intro hc
      have h1 := h.1
      rw [hc] at h1
      simp at h1
    rw [List.cons_append, unquote_cons_of_ne a ha, ih (by simp [quoteFree, h.2])]

theorem goodField_transform (f : List Char) (h : goodRawField f = true) :
    trimChars (jsStripEndQuotes (unquote false f)) = trimChars (stripOneEnclosingPair f) := by
  rcases Bool.or_eq_true _ _ |>.mp h with hqf | hq
  · rw [unquote_of_quoteFree f hqf, jsStripEndQuotes_of_quoteFree f hqf]
    rw [stripOneEnclosingPair, if_neg]
    intro hcond
    exact quoteFree_head f hqf hcond.2.1
  · simp only [Bool.and_eq_true, decide_eq_true_eq, beq_iff_eq] at hq
    obtain ⟨⟨⟨hlen, hh⟩, hl⟩, hqf⟩ := hq
    cases f with
    | nil => simp at hh
    | cons a t =>
      simp only [List.head?_cons, Option.some.injEq] at hh
      subst hh
      have ht : t ≠ [] := by
        intro hnil
        subst hnil
        simp at hlen
      have htl : t.getLast? = some '"' := by
        cases t with
        | nil => simp at ht
        | cons b t' => rw [← List.getLast?_cons_cons]; exact hl
      have hmid : (('"' :: t).drop 1).dropLast = t.dropLast := rfl
      rw [hmid] at hqf
      have hdecomp : t = t.dropLast ++ ['"'] := by
        have h1 := List.dropLast_append_getLast ht
        have h2 : t.getLast ht = '"' := by
          have h3 := List.getLast?_eq_getLast t ht
          rw [h3] at htl
          exact Option.some.inj htl
        rw [h2] at h1
        exact h1.symm
      have hleft : unquote false ('"' :: t) = t.dropLast := by
        rw [unquote_false_quote]
        conv_lhs => rw [hdecomp]
        exact unquote_true_append_quote t.dropLast hqf
      rw [hleft, jsStripEndQuotes_of_quoteFree _ hqf]
      rw [stripOneEnclosingPair, if_pos ⟨hlen, rfl, hl⟩]
      rfl

theorem unquoteFields_false (L : List (List Char)) :
    unquoteFields false L = L.map (unquote false) := by
  cases L <;> rfl

/-- C9 (amended): for every input line and chosen delimiter, every parsed
field whose raw content contains no double quotes except possibly a single
enclosing pair equals that raw content with the pair removed and
leading/trailing whitespace trimmed — also when other fields of the same
line are quoted differently.  (The unrestricted claim is refuted by
`claim_C9_counterexample`: the parser's quote state machine also removes
unmatched and interior structural quotes.) -/
theorem claim_C9_amended (line : String) (delim : Char) (i : Nat) (f : List Char)
    (hf : (rawFields line delim)[i]? = some f) (hgood : goodRawField f = true) :
    (parseLine line delim)[i]? = some (claimedFieldOf f) := by
  have hmap : parseLine line delim =
      (rawFields line delim).map
        (fun g => (⟨trimChars (jsStripEndQuotes (unquote false g))⟩ : String)) := by
    unfold parseLine
    rw [parseRun_eq_unquoteFields, unquoteFields_false, List.map_map]
    rfl
  rw [hmap, List.getElem?_map, hf]
  unfold claimedFieldOf
  exact congrArg (fun l => some (String.mk l)) (goodField_transform f hgood)

/-- C9 counterexample: on the line `"abc` the single field's raw content
is `"abc`, which is not enclosed in a matched quote pair, yet the parser
removes the leading quote: it yields `abc`, not the claimed `"abc`. -/
theorem claim_C9_counterexample :
    parseLine "\"abc" ',' ≠ claimedParseLine "\"abc" ',' := by decide

/-- Witness for C9 at the well-quoted field of a line whose other field is
ill-quoted. -/
theorem claim_C9_witness :
    (rawFields "a\"\"b,def" ',')[1]? = some ['d', 'e', 'f'] ∧
    goodRawField ['d', 'e', 'f'] = true ∧
    (parseLine "a\"\"b,def" ',')[1]? = some (claimedFieldOf ['d', 'e', 'f']) :=
  ⟨by decide, by decide,
   claim_C9_amended "a\"\"b,def" ',' 1 ['d', 'e', 'f'] (by decide) (by decide)⟩

/-! ## Row-level dedup accounting (claim C3) -/

theorem scanOneColumn_dupvalid (cfg : RunConfig) (fast : Bool) (rowNum : Nat)
    (cell : Nat → CellValue) (acc : ColScan) (col : Nat) :
    (scanOneColumn cfg fast rowNum cell acc col).stats.duplicates = acc.stats.duplicates ∧
    (scanOneColumn cfg fast rowNum cell acc col).stats.valid = acc.stats.valid := by
  simp only [scanOneColumn]
  split <;> split_ifs <;> simp

theorem scanColumns_foldl_dupvalid (cfg : RunConfig) (fast : Bool) (rowNum : Nat)
    (cell : Nat → CellValue) (cols : List Nat) :
    ∀ acc : ColScan,
      (cols.foldl (scanOneColumn cfg fast rowNum cell) acc).stats.duplicates =
        acc.stats.duplicates ∧
      (cols.foldl (scanOneColumn cfg fast rowNum cell) acc).stats.valid = acc.stats.valid := by
  induction cols with
  | nil => intro acc; simp
  | cons c cs ih =>
    intro acc
    simp only [List.foldl_cons]
    have h1 := scanOneColumn_dupvalid cfg fast rowNum cell acc c
    have h2 := ih (scanOneColumn cfg fast rowNum cell acc c)
    exact ⟨h2.1.trans h1.1, h2.2.trans h1.2⟩

/-- The per-column scan never touches the `duplicates` and `valid`
counters (it only increments the invalid counters and records samples). -/
theorem scanColumns_dupvalid (cfg : RunConfig) (fast : Bool) (rowNum : Nat)
    (cell : Nat → CellValue) (stats : Stats) (buckets : Buckets) :
    (scanColumns cfg fast rowNum cell stats buckets).stats.duplicates = stats.duplicates ∧
    (scanColumns cfg fast rowNum cell stats buckets).stats.valid = stats.valid :=
  scanColumns_foldl_dupvalid cfg fast rowNum cell cfg.selectedColumns ⟨[], [], stats, buckets⟩

/-- C3: in a non-keep-all mode, a data row yielding at least one canonical
number either consists entirely of already-seen numbers — then the
duplicate counter increments exactly once for the whole row, nothing is
registered and `valid` is unchanged — or it has first-seen numbers — then
exactly those are registered into the dedup set and `valid` increments by
their count.  Both the in-memory and the CSV-streaming row step satisfy
this. -/
theorem claim_C3_row_dedup :
    (∀ (cfg : RunConfig) (fast : Bool) (rowNum : Nat) (raw : List CellValue) (st : RunState),
      cfg.mode ≠ .keepAll →
      ∀ rowMobiles : List String,
        rowMobiles = jsSetDedup (scanColumns cfg fast rowNum
          (fun c => ((rowForMode cfg raw).get? c).getD CellValue.null)
          st.stats st.buckets).validMobiles →
        rowMobiles ≠ [] →
        ((∀ m ∈ rowMobiles, normalizedOf m ∈ st.seenNumbers) →
           (processRowMem cfg fast rowNum raw st).stats.duplicates = st.stats.duplicates + 1 ∧
           (processRowMem cfg fast rowNum raw st).seenNumbers = st.seenNumbers ∧
           (processRowMem cfg fast rowNum raw st).stats.valid = st.stats.valid) ∧
        ((∃ m ∈ rowMobiles, normalizedOf m ∉ st.seenNumbers) →
           (processRowMem cfg fast rowNum raw st).seenNumbers =
             (rowMobiles.filter (fun m => normalizedOf m ∉ st.seenNumbers)).foldl
               (fun s n => insertUnique s (normalizedOf n)) st.seenNumbers ∧
           (processRowMem cfg fast rowNum raw st).stats.valid =
             st.stats.valid +
               (rowMobiles.filter (fun m => normalizedOf m ∉ st.seenNumbers)).length ∧
           (processRowMem cfg fast rowNum raw st).stats.duplicates = st.stats.duplicates)) ∧
    (∀ (cfg : RunConfig) (rowNum : Nat) (rawRow : List String) (st : StreamState),
      cfg.mode ≠ .keepAll →
      ∀ rowMobiles : List String,
        rowMobiles = jsSetDedup (scanColumns cfg false rowNum
          (fun c =>
            match (rawRow ++ List.replicate (cfg.headers.length - rawRow.length) "").get? c with
            | some s => CellValue.str s
            | none => CellValue.null)
          { st.stats with total := st.dataRowsProcessed + 1 } st.buckets).validMobiles →
        rowMobiles ≠ [] →
        ((∀ m ∈ rowMobiles, normalizedOf m ∈ st.seenNumbers) →
           (processRowStream cfg rowNum rawRow st).stats.duplicates = st.stats.duplicates + 1 ∧
           (processRowStream cfg rowNum rawRow st).seenNumbers = st.seenNumbers ∧
           (processRowStream cfg rowNum rawRow st).stats.valid = st.stats.valid) ∧
        ((∃ m ∈ rowMobiles, normalizedOf m ∉ st.seenNumbers) →
           (processRowStream cfg rowNum rawRow st).seenNumbers =
             (rowMobiles.filter (fun m => normalizedOf m ∉ st.seenNumbers)).foldl
               (fun s n => insertUnique s (normalizedOf n)) st.seenNumbers ∧
           (processRowStream cfg rowNum rawRow st).stats.valid =
             st.stats.valid +
               (rowMobiles.filter (fun m => normalizedOf m ∉ st.seenNumbers)).length ∧
           (processRowStream cfg rowNum rawRow st).stats.duplicates = st.stats.duplicates)) := by
  constructor
  · intro cfg fast rowNum raw st hmode rowMobiles hrm hne
    subst hrm
    constructor
    · intro hall
      have hu : (jsSetDedup (scanColumns cfg fast rowNum
          (fun c => ((rowForMode cfg raw).get? c).getD CellValue.null)
          st.stats st.buckets).validMobiles).filter
            (fun m => normalizedOf m ∉ st.seenNumbers) = [] := by
        rw [List.filter_eq_nil_iff]
        intro m hm
        simp only [decide_eq_true_eq, Decidable.not_not]
        exact hall m hm
      simp only [processRowMem]
      rw [if_neg hmode, if_neg hne]
      simp only [hu]
      have hsc := scanColumns_dupvalid cfg fast rowNum
        (fun c => ((rowForMode cfg raw).get? c).getD CellValue.null) st.stats st.buckets
      simp only [List.get?_eq_getElem?] at hsc
      simp [hsc.1, hsc.2]
    · intro hex
      have hu : (jsSetDedup (scanColumns cfg fast rowNum
          (fun c => ((rowForMode cfg raw).get? c).getD CellValue.null)
          st.stats st.buckets).validMobiles).filter
            (fun m => normalizedOf m ∉ st.seenNumbers) ≠ [] := by
        obtain ⟨m, hm, hnotin⟩ := hex
        intro hnil
        have : m ∈ ([] : List String) := by
          rw [← hnil]
          exact List.mem_filter.mpr ⟨hm, by simpa using hnotin⟩
        simp at this
      simp only [processRowMem]
      rw [if_neg hmode, if_neg hne]
      simp only [if_neg hu]
      have hsc := scanColumns_dupvalid cfg fast rowNum
        (fun c => ((rowForMode cfg raw).get? c).getD CellValue.null) st.stats st.buckets
      simp only [List.get?_eq_getElem?] at hsc
      simp [hsc.1, hsc.2]
  · intro cfg rowNum rawRow st hmode rowMobiles hrm hne
    subst hrm
    constructor
    · intro hall
      have hu : (jsSetDedup (scanColumns cfg false rowNum
          (fun c =>
            match (rawRow ++ List.replicate (cfg.headers.length - rawRow.length) "").get? c with
            | some s => CellValue.str s
            | none => CellValue.null)
          { st.stats with total := st.dataRowsProcessed + 1 } st.buckets).validMobiles).filter
            (fun m => normalizedOf m ∉ st.seenNumbers) = [] := by
        rw [List.filter_eq_nil_iff]
        intro m hm
        simp only [decide_eq_true_eq, Decidable.not_not]
        exact hall m hm
      simp only [processRowStream]
      rw [if_neg hmode, if_neg hne]
      simp only [hu]
      have hsc := scanColumns_dupvalid cfg false rowNum
        (fun c =>
          match (rawRow ++ List.replicate (cfg.headers.length - rawRow.length) "").get? c with
          | some s => CellValue.str s
          | none => CellValue.null)
        { st.stats with total := st.dataRowsProcessed + 1 } st.buckets
      simp only [List.get?_eq_getElem?] at hsc
      simp [hsc.1, hsc.2]
    · intro hex
      have hu : (jsSetDedup (scanColumns cfg false rowNum
          (fun c =>
            match (rawRow ++ List.replicate (cfg.headers.length - rawRow.length) "").get? c with
            | some s => CellValue.str s
            | none => CellValue.null)
          { st.stats with total := st.dataRowsProcessed + 1 } st.buckets).validMobiles).filter
            (fun m => normalizedOf m ∉ st.seenNumbers) ≠ [] := by
        obtain ⟨m, hm, hnotin⟩ := hex
        intro hnil
        have : m ∈ ([] : List String) := by
          rw [← hnil]
          exact List.mem_filter.mpr ⟨hm, by simpa using hnotin⟩
        simp at this
      simp only [processRowStream]
      rw [if_neg hmode, if_neg hne]
      simp only [if_neg hu]
      have hsc := scanColumns_dupvalid cfg false rowNum
        (fun c =>
          match (rawRow ++ List.replicate (cfg.headers.length - rawRow.length) "").get? c with
          | some s => CellValue.str s
          | none => CellValue.null)
        { st.stats with total := st.dataRowsProcessed + 1 } st.buckets
      simp only [List.get?_eq_getElem?] at hsc
      split_ifs <;> simp [hsc.1, hsc.2]

/-- Witness for C3: a first-seen row on the in-memory path. -/
theorem claim_C3_witness :
    (processRowMem ⟨.unique, [0], ["M"], none⟩ false 1 [.str "9818202888"]
        initRunState).seenNumbers =
      ((["+919818202888"]).filter
          (fun m => normalizedOf m ∉ initRunState.seenNumbers)).foldl
        (fun s n => insertUnique s (normalizedOf n)) initRunState.seenNumbers ∧
    (processRowMem ⟨.unique, [0], ["M"], none⟩ false 1 [.str "9818202888"]
        initRunState).stats.valid =
      initRunState.stats.valid +
        ((["+919818202888"]).filter
            (fun m => normalizedOf m ∉ initRunState.seenNumbers)).length ∧
    (processRowMem ⟨.unique, [0], ["M"], none⟩ false 1 [.str "9818202888"]
        initRunState).stats.duplicates = initRunState.stats.duplicates :=
  (claim_C3_row_dedup.1 ⟨.unique, [0], ["M"], none⟩ false 1 [.str "9818202888"]
    initRunState (by decide) ["+919818202888"] (by decide) (by decide)).2 (by decide)

/-! ## Keep-all mode retains every row (claim C6) -/

theorem processRowMem_keepAll_cleaned (cfg : RunConfig) (hm : cfg.mode = .keepAll)
    (fast : Bool) (i : Nat) (raw : List CellValue) (st : RunState) :
    (processRowMem cfg fast i raw st).cleanedRows.length = st.cleanedRows.length + 1 := by
  simp only [processRowMem]
  rw [if_pos hm]
  split_ifs <;> simp

theorem runMemAux_keepAll_cleaned (cfg : RunConfig) (hm : cfg.mode = .keepAll) (fast : Bool) :
    ∀ (rows : List (List CellValue)) (i : Nat) (st : RunState),
      (runMemAux cfg fast i rows st).cleanedRows.length =
        st.cleanedRows.length + rows.length := by
  intro rows
  induction rows with
  | nil => intro i st; simp [runMemAux]
  | cons r rs ih =>
    intro i st
    simp only [runMemAux]
    rw [ih (i + 1) (processRowMem cfg fast i r st),
      processRowMem_keepAll_cleaned cfg hm fast i r st]
    simp only [List.length_cons]
    omega

theorem processRowStream_keepAll_counts (cfg : RunConfig) (hm : cfg.mode = .keepAll)
    (i : Nat) (raw : List String) (st : StreamState) :
    (processRowStream cfg i raw st).exportRowCount = st.exportRowCount + 1 ∧
    (processRowStream cfg i raw st).csvLines.length = st.csvLines.length + 1 := by
  simp only [processRowStream]
  rw [if_pos hm]
  split_ifs <;> simp

theorem runStreamAux_keepAll_counts (cfg : RunConfig) (hm : cfg.mode = .keepAll) :
    ∀ (rows : List (List String)) (i : Nat) (st : StreamState),
      (runStreamAux cfg i rows st).exportRowCount = st.exportRowCount + rows.length ∧
      (runStreamAux cfg i rows st).csvLines.length = st.csvLines.length + rows.length := by
  intro rows
  induction rows with
  | nil => intro i st; simp [runStreamAux]
  | cons r rs ih =>
    intro i st
    simp only [runStreamAux]
    have h1 := processRowStream_keepAll_counts cfg hm i r st
    have h2 := ih (i + 1) (processRowStream cfg i r st)
    simp only [List.length_cons]
    constructor
    · rw [h2.1, h1.1]; omega
    · rw [h2.2, h1.2]; omega

/-- C6: in keep-all mode every data row is retained: the exported body row
count (the cleaned rows in the in-memory path; the emitted data CSV lines
and the exported-row counter in the streaming path) equals the number of
data rows after the header row. -/
theorem claim_C6_keep_all_retains_rows :
    (∀ (cols : List Nat) (headers : List String) (nameCol : Option Nat)
        (rows : List (List CellValue)),
      (runMem ⟨.keepAll, cols, headers, nameCol⟩ rows).cleanedRows.length = rows.length) ∧
    (∀ (cols : List Nat) (headers : List String) (nameCol : Option Nat)
        (rows : List (List String)),
      (runStream ⟨.keepAll, cols, headers, nameCol⟩ rows).exportRowCount = rows.length ∧
      (runStream ⟨.keepAll, cols, headers, nameCol⟩ rows).csvLines.length = rows.length) := by
  constructor
  · intro cols headers nameCol rows
    unfold runMem runMemWith
    rw [runMemAux_keepAll_cleaned ⟨.keepAll, cols, headers, nameCol⟩ rfl]
    simp [initRunState]
  · intro cols headers nameCol rows
    unfold runStream
    have h := runStreamAux_keepAll_counts ⟨.keepAll, cols, headers, nameCol⟩ rfl rows 1
      initStreamState
    simp only [initStreamState] at h
    simpa using h

/-! ## The unique-export dedup invariant (claim C5) -/

theorem cleanedNumbers_shape (v : CellValue) :
    ∀ m ∈ (cleanMobileDetailed v).cleanedNumbers, canonicalShape m = true :=
  fun m hm => extractValidMobiles_shape v 2 m (cleanMobileDetailed_cleanedNumbers v m hm)

theorem scanOneColumn_validMobiles (cfg : RunConfig) (fast : Bool) (rowNum : Nat)
    (cell : Nat → CellValue) (acc : ColScan) (col : Nat) :
    ∀ m ∈ (scanOneColumn cfg fast rowNum cell acc col).validMobiles,
      m ∈ acc.validMobiles ∨ canonicalShape m = true := by
  intro m hm
  simp only [scanOneColumn] at hm
  split at hm
  · split_ifs at hm <;> simp_all
  · next nums heq =>
    split_ifs at hm <;>
      (simp only [List.mem_append] at hm
       rcases hm with hm | hm
       · left; simpa using hm
       · right
         exact cleanedNumbers_shape _ m hm)

theorem scanColumns_validMobiles_shape (cfg : RunConfig) (fast : Bool) (rowNum : Nat)
    (cell : Nat → CellValue) (stats : Stats) (buckets : Buckets) :
    ∀ m ∈ (scanColumns cfg fast rowNum cell stats buckets).validMobiles,
      canonicalShape m = true := by
  unfold scanColumns
  have hgen : ∀ (cols : List Nat) (acc : ColScan),
      (∀ m ∈ acc.validMobiles, canonicalShape m = true) →
      ∀ m ∈ (cols.foldl (scanOneColumn cfg fast rowNum cell) acc).validMobiles,
        canonicalShape m = true := by
    intro cols
    induction cols with
    | nil => intro acc hacc m hm; exact hacc m hm
    | cons c cs ih =>
      intro acc hacc m hm
      refine ih (scanOneColumn cfg fast rowNum cell acc c) ?_ m hm
      intro x hx
      rcases scanOneColumn_validMobiles cfg fast rowNum cell acc c x hx with h | h
      · exact hacc x h
      · exact h
  exact hgen cfg.selectedColumns ⟨[], [], stats, buckets⟩ (by simp)

theorem canonicalShape_inv (m : String) (h : canonicalShape m = true) :
    m.data = '+' :: '9' :: '1' :: m.data.drop 3 := by
  unfold canonicalShape at h
  split at h
  · next ds heq => rw [heq]; rfl
  · simp at h

theorem normalizedOf_inj_on (m1 m2 : String) (h1 : canonicalShape m1 = true)
    (h2 : canonicalShape m2 = true) (heq : normalizedOf m1 = normalizedOf m2) : m1 = m2 := by
  have e1 := canonicalShape_inv m1 h1
  have e2 := canonicalShape_inv m2 h2
  unfold normalizedOf at heq
  rw [e1, e2] at heq
  simp only [replacePlus91] at heq
  have hd : m1.data.drop 3 = m2.data.drop 3 := congrArg String.data heq
  have : m1.data = m2.data := by rw [e1, e2, hd]
  cases m1
  cases m2
  exact congrArg String.mk this

theorem insertUnique_nodup (l : List String) (x : String) (h : l.Nodup) :
    (insertUnique l x).Nodup := by
  unfold insertUnique
  split_ifs with hx
  · exact h
  · simp [List.nodup_append, h, hx]

theorem jsSetDedup_nodup (l : List String) : (jsSetDedup l).Nodup := by
  unfold jsSetDedup
  have hgen : ∀ (xs acc : List String), acc.Nodup → (xs.foldl insertUnique acc).Nodup := by
    intro xs
    induction xs with
    | nil => intro acc h; exact h
    | cons x xs' ih => intro acc h; exact ih (insertUnique acc x) (insertUnique_nodup acc x h)
  exact hgen l [] (by simp)

theorem jsSetDedup_subset (l : List String) : ∀ x ∈ jsSetDedup l, x ∈ l := by
  unfold jsSetDedup
  have hgen : ∀ (xs acc : List String), ∀ x ∈ xs.foldl insertUnique acc, x ∈ acc ∨ x ∈ xs := by
    intro xs
    induction xs with
    | nil => intro acc x hx; exact Or.inl hx
    | cons y ys ih =>
      intro acc x hx
      rcases ih (insertUnique acc y) x hx with h | h
      · unfold insertUnique at h
        split_ifs at h with hy
        · exact Or.inl h
        · rcases List.mem_append.mp h with h | h
          · exact Or.inl h
          · simp only [List.mem_singleton] at h
            subst h
            exact Or.inr (by simp)
      · exact Or.inr (by simp [h])
  intro x hx
  rcases hgen l [] x hx with h | h
  · simp at h
  · exact h

theorem foldl_insertUnique_norm (xs : List String) :
    ∀ s : List String, (∀ x ∈ xs, normalizedOf x ∉ s) → (xs.map normalizedOf).Nodup →
      s.Nodup →
      (xs.foldl (fun a n => insertUnique a (normalizedOf n)) s).length = s.length + xs.length ∧
      (xs.foldl (fun a n => insertUnique a (normalizedOf n)) s).Nodup := by
  induction xs with
  | nil => intro s _ _ hs; simp [hs]
  | cons x xs' ih =>
    intro s hnot hmap hs
    simp only [List.foldl_cons]
    have hx : normalizedOf x ∉ s := hnot x (by simp)
    have hins : insertUnique s (normalizedOf x) = s ++ [normalizedOf x] := by
      unfold insertUnique
      rw [if_neg hx]
    simp only [List.map_cons, List.nodup_cons] at hmap
    have hnot' : ∀ y ∈ xs', normalizedOf y ∉ s ++ [normalizedOf x] := by
      intro y hy hmem
      rcases List.mem_append.mp hmem with h | h
      · exact hnot y (by simp [hy]) h
      · simp only [List.mem_singleton] at h
        exact hmap.1 (h ▸ List.mem_map_of_mem normalizedOf hy)
    have hrec := ih (s ++ [normalizedOf x]) hnot' hmap.2
      (by simp [List.nodup_append, hs, hx])
    rw [hins]
    refine ⟨?_, hrec.2⟩
    rw [hrec.1]
    simp only [List.length_append, List.length_cons, List.length_nil]
    omega

theorem processRowMem_unique_count (cfg : RunConfig) (fast : Bool) (i : Nat)
    (raw : List CellValue) (st : RunState)
    (hlen : st.uniqueNumbers.length = st.seenNumbers.length) (hnd : st.seenNumbers.Nodup) :
    (processRowMem cfg fast i raw st).uniqueNumbers.length =
      (processRowMem cfg fast i raw st).seenNumbers.length ∧
    (processRowMem cfg fast i raw st).seenNumbers.Nodup := by
  have hshape : ∀ m ∈ jsSetDedup (scanColumns cfg fast i
      (fun c => ((rowForMode cfg raw).get? c).getD CellValue.null)
      st.stats st.buckets).validMobiles, canonicalShape m = true :=
    fun m hm => scanColumns_validMobiles_shape cfg fast i _ st.stats st.buckets m
      (jsSetDedup_subset _ m hm)
  have hnot : ∀ x ∈ (jsSetDedup (scanColumns cfg fast i
      (fun c => ((rowForMode cfg raw).get? c).getD CellValue.null)
      st.stats st.buckets).validMobiles).filter
        (fun m => normalizedOf m ∉ st.seenNumbers),
      normalizedOf x ∉ st.seenNumbers := by
    intro x hx
    have := List.of_mem_filter hx
    simpa using this
  have hund : ((jsSetDedup (scanColumns cfg fast i
      (fun c => ((rowForMode cfg raw).get? c).getD CellValue.null)
      st.stats st.buckets).validMobiles).filter
        (fun m => normalizedOf m ∉ st.seenNumbers)).Nodup :=
    (jsSetDedup_nodup _).filter _
  have hmapnd : (((jsSetDedup (scanColumns cfg fast i
      (fun c => ((rowForMode cfg raw).get? c).getD CellValue.null)
      st.stats st.buckets).validMobiles).filter
        (fun m => normalizedOf m ∉ st.seenNumbers)).map normalizedOf).Nodup := by
    refine List.Nodup.map_on ?_ hund
    intro x hx y hy hxy
    exact normalizedOf_inj_on x y (hshape x (List.mem_of_mem_filter hx))
      (hshape y (List.mem_of_mem_filter hy)) hxy
  have H := foldl_insertUnique_norm _ st.seenNumbers hnot hmapnd hnd
  simp only [processRowMem]
  split_ifs <;>
    first
      | exact ⟨by simpa using hlen, by simpa using hnd⟩
      | (refine ⟨?_, by simpa using H.2⟩
         simp only [List.length_append]
         rw [hlen]
         simpa using H.1.symm)

theorem processRowStream_unique_count (cfg : RunConfig) (hm : cfg.mode = .unique) (i : Nat)
    (raw : List String) (st : StreamState)
    (hcnt : st.exportRowCount = st.seenNumbers.length)
    (hlines : st.csvLines.length = st.seenNumbers.length) (hnd : st.seenNumbers.Nodup) :
    (processRowStream cfg i raw st).exportRowCount =
      (processRowStream cfg i raw st).seenNumbers.length ∧
    (processRowStream cfg i raw st).csvLines.length =
      (processRowStream cfg i raw st).seenNumbers.length ∧
    (processRowStream cfg i raw st).seenNumbers.Nodup := by
  have hshape : ∀ m ∈ jsSetDedup (scanColumns cfg false i
      (fun c =>
        match (raw ++ List.replicate (cfg.headers.length - raw.length) "").get? c with
        | some s => CellValue.str s
        | none => CellValue.null)
      { st.stats with total := st.dataRowsProcessed + 1 } st.buckets).validMobiles,
      canonicalShape m = true :=
    fun m hmm => scanColumns_validMobiles_shape cfg false i _ _ st.buckets m
      (jsSetDedup_subset _ m hmm)
  have hnot : ∀ x ∈ (jsSetDedup (scanColumns cfg false i
      (fun c =>
        match (raw ++ List.replicate (cfg.headers.length - raw.length) "").get? c with
        | some s => CellValue.str s
        | none => CellValue.null)
      { st.stats with total := st.dataRowsProcessed + 1 } st.buckets).validMobiles).filter
        (fun m => normalizedOf m ∉ st.seenNumbers),
      normalizedOf x ∉ st.seenNumbers := by
    intro x hx
    have := List.of_mem_filter hx
    simpa using this
  have hund : ((jsSetDedup (scanColumns cfg false i
      (fun c =>
        match (raw ++ List.replicate (cfg.headers.length - raw.length) "").get? c with
        | some s => CellValue.str s
        | none => CellValue.null)
      { st.stats with total := st.dataRowsProcessed + 1 } st.buckets).validMobiles).filter
        (fun m => normalizedOf m ∉ st.seenNumbers)).Nodup :=
    (jsSetDedup_nodup _).filter _
  have hmapnd : (((jsSetDedup (scanColumns cfg false i
      (fun c =>
        match (raw ++ List.replicate (cfg.headers.length - raw.length) "").get? c with
        | some s => CellValue.str s
        | none => CellValue.null)
      { st.stats with total := st.dataRowsProcessed + 1 } st.buckets).validMobiles).filter
        (fun m => normalizedOf m ∉ st.seenNumbers)).map normalizedOf).Nodup := by
    refine List.Nodup.map_on ?_ hund
    intro x hx y hy hxy
    exact normalizedOf_inj_on x y (hshape x (List.mem_of_mem_filter hx))
      (hshape y (List.mem_of_mem_filter hy)) hxy
  have H := foldl_insertUnique_norm _ st.seenNumbers hnot hmapnd hnd
  have hka : ¬cfg.mode = ExportMode.keepAll := by rw [hm]; decide
  have hmn : ¬cfg.mode = ExportMode.mobileName := by rw [hm]; decide
  simp only [processRowStream]
  split_ifs <;> first
    | exact absurd (by assumption) hka
    | exact absurd (by assumption) hmn
    | exact ⟨by simpa using hcnt, by simpa using hlines, by simpa using hnd⟩
    | (refine ⟨?_, ?_, by simpa using H.2⟩ <;>
        (simp only [List.length_append, List.length_map]
         first
           | (rw [hcnt]; simpa using H.1.symm)
           | (rw [hlines]; simpa using H.1.symm)))

theorem runMemAux_unique_count (cfg : RunConfig) (fast : Bool) :
    ∀ (rows : List (List CellValue)) (i : Nat) (st : RunState),
      st.uniqueNumbers.length = st.seenNumbers.length → st.seenNumbers.Nodup →
      (runMemAux cfg fast i rows st).uniqueNumbers.length =
        (runMemAux cfg fast i rows st).seenNumbers.length ∧
      (runMemAux cfg fast i rows st).seenNumbers.Nodup := by
  intro rows
  induction rows with
  | nil => intro i st h1 h2; exact ⟨h1, h2⟩
  | cons r rs ih =>
    intro i st h1 h2
    simp only [runMemAux]
    have h := processRowMem_unique_count cfg fast i r st h1 h2
    exact ih (i + 1) (processRowMem cfg fast i r st) h.1 h.2

theorem runStreamAux_unique_count (cfg : RunConfig) (hm : cfg.mode = .unique) :
    ∀ (rows : List (List String)) (i : Nat) (st : StreamState),
      st.exportRowCount = st.seenNumbers.length →
      st.csvLines.length = st.seenNumbers.length → st.seenNumbers.Nodup →
      (runStreamAux cfg i rows st).exportRowCount =
        (runStreamAux cfg i rows st).seenNumbers.length ∧
      (runStreamAux cfg i rows st).csvLines.length =
        (runStreamAux cfg i rows st).seenNumbers.length ∧
      (runStreamAux cfg i rows st).seenNumbers.Nodup := by
  intro rows
  induction rows with
  | nil => intro i st h1 h2 h3; exact ⟨h1, h2, h3⟩
  | cons r rs ih =>
    intro i st h1 h2 h3
    simp only [runStreamAux]
    have h := processRowStream_unique_count cfg hm i r st h1 h2 h3
    exact ih (i + 1) (processRowStream cfg i r st) h.1 h.2.1 h.2.2

/-- C5: in unique export mode the number of exported data entries (the
`uniqueNumbers` list in the in-memory path; the emitted CSV data lines and
the exported-row counter in the streaming path) equals the number of
distinct digit-only canonical forms registered into the run's dedup set,
which stays duplicate-free. -/
theorem claim_C5_unique_export_count :
    (∀ (cols : List Nat) (headers : List String) (nameCol : Option Nat)
        (rows : List (List CellValue)),
      (runMem ⟨.unique, cols, headers, nameCol⟩ rows).uniqueNumbers.length =
        (runMem ⟨.unique, cols, headers, nameCol⟩ rows).seenNumbers.length ∧
      (runMem ⟨.unique, cols, headers, nameCol⟩ rows).seenNumbers.Nodup) ∧
    (∀ (cols : List Nat) (headers : List String) (nameCol : Option Nat)
        (rows : List (List String)),
      (runStream ⟨.unique, cols, headers, nameCol⟩ rows).exportRowCount =
        (runStream ⟨.unique, cols, headers, nameCol⟩ rows).seenNumbers.length ∧
      (runStream ⟨.unique, cols, headers, nameCol⟩ rows).csvLines.length =
        (runStream ⟨.unique, cols, headers, nameCol⟩ rows).seenNumbers.length ∧
      (runStream ⟨.unique, cols, headers, nameCol⟩ rows).seenNumbers.Nodup) := by
  constructor
  · intro cols headers nameCol rows
    exact runMemAux_unique_count ⟨.unique, cols, headers, nameCol⟩ _ rows 1 _ rfl
      (by simp [initRunState])
  · intro cols headers nameCol rows
    exact runStreamAux_unique_count ⟨.unique, cols, headers, nameCol⟩ rfl rows 1
      initStreamState rfl rfl (by simp [initStreamState])

/-! ## Fast mode and audit sampling (claim C8) -/

theorem scanOneColumn_fast_buckets (cfg : RunConfig) (rowNum : Nat) (cell : Nat → CellValue)
    (acc : ColScan) (col : Nat) :
    (scanOneColumn cfg true rowNum cell acc col).buckets = acc.buckets := by
  simp only [scanOneColumn]
  split <;> split_ifs <;> simp

theorem scanColumns_fast_buckets (cfg : RunConfig) (rowNum : Nat) (cell : Nat → CellValue)
    (stats : Stats) (buckets : Buckets) :
    (scanColumns cfg true rowNum cell stats buckets).buckets = buckets := by
  unfold scanColumns
  have hgen : ∀ (cols : List Nat) (acc : ColScan),
      (cols.foldl (scanOneColumn cfg true rowNum cell) acc).buckets = acc.buckets := by
    intro cols
    induction cols with
    | nil => intro acc; rfl
    | cons c cs ih =>
      intro acc
      simp only [List.foldl_cons]
      rw [ih (scanOneColumn cfg true rowNum cell acc c),
        scanOneColumn_fast_buckets cfg rowNum cell acc c]
  exact hgen cfg.selectedColumns ⟨[], [], stats, buckets⟩

theorem processRowMem_fast_buckets (cfg : RunConfig) (i : Nat) (raw : List CellValue)
    (st : RunState) : (processRowMem cfg true i raw st).buckets = st.buckets := by
  simp only [processRowMem]
  split_ifs <;> simp [scanColumns_fast_buckets]

theorem runMemAux_fast_buckets (cfg : RunConfig) :
    ∀ (rows : List (List CellValue)) (i : Nat) (st : RunState),
      (runMemAux cfg true i rows st).buckets = st.buckets := by
  intro rows
  induction rows with
  | nil => intro i st; rfl
  | cons r rs ih =>
    intro i st
    simp only [runMemAux]
    rw [ih (i + 1) (processRowMem cfg true i r st), processRowMem_fast_buckets]

theorem scanOneColumn_fast_agree (cfg : RunConfig) (rowNum : Nat) (cell : Nat → CellValue)
    (col : Nat) (a b : ColScan) (hv : a.validMobiles = b.validMobiles)
    (hp : a.perColumn = b.perColumn) (hs : a.stats = b.stats) :
    (scanOneColumn cfg true rowNum cell a col).validMobiles =
      (scanOneColumn cfg false rowNum cell b col).validMobiles ∧
    (scanOneColumn cfg true rowNum cell a col).perColumn =
      (scanOneColumn cfg false rowNum cell b col).perColumn ∧
    (scanOneColumn cfg true rowNum cell a col).stats =
      (scanOneColumn cfg false rowNum cell b col).stats := by
  simp only [scanOneColumn]
  split <;> split_ifs <;> simp [hv, hp, hs]

theorem scanColumns_fast_agree (cfg : RunConfig) (rowNum : Nat) (cell : Nat → CellValue)
    (stats : Stats) (b1 b2 : Buckets) :
    (scanColumns cfg true rowNum cell stats b1).validMobiles =
      (scanColumns cfg false rowNum cell stats b2).validMobiles ∧
    (scanColumns cfg true rowNum cell stats b1).perColumn =
      (scanColumns cfg false rowNum cell stats b2).perColumn ∧
    (scanColumns cfg true rowNum cell stats b1).stats =
      (scanColumns cfg false rowNum cell stats b2).stats := by
  unfold scanColumns
  have hgen : ∀ (cols : List Nat) (a b : ColScan),
      a.validMobiles = b.validMobiles → a.perColumn = b.perColumn → a.stats = b.stats →
      (cols.foldl (scanOneColumn cfg true rowNum cell) a).validMobiles =
        (cols.foldl (scanOneColumn cfg false rowNum cell) b).validMobiles ∧
      (cols.foldl (scanOneColumn cfg true rowNum cell) a).perColumn =
        (cols.foldl (scanOneColumn cfg false rowNum cell) b).perColumn ∧
      (cols.foldl (scanOneColumn cfg true rowNum cell) a).stats =
        (cols.foldl (scanOneColumn cfg false rowNum cell) b).stats := by
    intro cols
    induction cols with
    | nil => intro a b hv hp hs; exact ⟨hv, hp, hs⟩
    | cons c cs ih =>
      intro a b hv hp hs
      simp only [List.foldl_cons]
      have h := scanOneColumn_fast_agree cfg rowNum cell c a b hv hp hs
      exact ih _ _ h.1 h.2.1 h.2.2
  exact hgen cfg.selectedColumns ⟨[], [], stats, b1⟩ ⟨[], [], stats, b2⟩ rfl rfl rfl

theorem processRowMem_fast_agree (cfg : RunConfig) (i : Nat) (raw : List CellValue)
    (s1 s2 : RunState) (h1 : s1.seenNumbers = s2.seenNumbers)
    (h2 : s1.cleanedRows = s2.cleanedRows) (h3 : s1.uniqueNumbers = s2.uniqueNumbers)
    (h4 : s1.mobileNamePairs = s2.mobileNamePairs) (h5 : s1.stats = s2.stats) :
    (processRowMem cfg true i raw s1).seenNumbers =
      (processRowMem cfg false i raw s2).seenNumbers ∧
    (processRowMem cfg true i raw s1).cleanedRows =
      (processRowMem cfg false i raw s2).cleanedRows ∧
    (processRowMem cfg true i raw s1).uniqueNumbers =
      (processRowMem cfg false i raw s2).uniqueNumbers ∧
    (processRowMem cfg true i raw s1).mobileNamePairs =
      (processRowMem cfg false i raw s2).mobileNamePairs ∧
    (processRowMem cfg true i raw s1).stats = (processRowMem cfg false i raw s2).stats := by
  have hsc := scanColumns_fast_agree cfg i
    (fun c => ((rowForMode cfg raw).get? c).getD CellValue.null) s2.stats s1.buckets s2.buckets
  simp only [processRowMem, h1, h2, h3, h4, h5, hsc.1, hsc.2.1, hsc.2.2]
  split_ifs <;> simp

theorem runMemAux_fast_agree (cfg : RunConfig) :
    ∀ (rows : List (List CellValue)) (i : Nat) (s1 s2 : RunState),
      s1.seenNumbers = s2.seenNumbers → s1.cleanedRows = s2.cleanedRows →
      s1.uniqueNumbers = s2.uniqueNumbers → s1.mobileNamePairs = s2.mobileNamePairs →
      s1.stats = s2.stats →
      (runMemAux cfg true i rows s1).stats = (runMemAux cfg false i rows s2).stats := by
  intro rows
  induction rows with
  | nil => intro i s1 s2 _ _ _ _ h5; exact h5
  | cons r rs ih =>
    intro i s1 s2 h1 h2 h3 h4 h5
    simp only [runMemAux]
    have h := processRowMem_fast_agree cfg i r s1 s2 h1 h2 h3 h4 h5
    exact ih (i + 1) _ _ h.1 h.2.1 h.2.2.1 h.2.2.2.1 h.2.2.2.2

/-- C8 (amended): in the in-memory `cleanAndDownload` path, a run with at
least `FAST_MODE_ROWS` (100000) data rows enables fast mode, records no
audit samples into any of the four stat buckets, and still updates the
counters exactly as a sampling run would.  (The claim as stated over every
clean-and-export run is refuted by `claim_C8_counterexample`: the CSV
streaming path has no fast mode and records samples at any row count.) -/
theorem claim_C8_fast_mode_in_memory (cfg : RunConfig) (rows : List (List CellValue))
    (h : FAST_MODE_ROWS ≤ rows.length) :
    fastModeFor rows.length = true ∧
    (runMem cfg rows).buckets = ⟨[], [], [], []⟩ ∧
    (runMem cfg rows).stats = (runMemWith false cfg rows).stats := by
  have hf : fastModeFor rows.length = true := decide_eq_true h
  refine ⟨hf, ?_, ?_⟩
  · unfold runMem runMemWith
    rw [hf]
    rw [runMemAux_fast_buckets]
    rfl
  · unfold runMem runMemWith
    rw [hf]
    exact runMemAux_fast_agree cfg rows 1 _ _ rfl rfl rfl rfl rfl

/-- Witness for C8 at a run of exactly 100000 rows. -/
theorem claim_C8_witness :
    FAST_MODE_ROWS ≤ (List.replicate 100000 ([] : List CellValue)).length ∧
    (fastModeFor (List.replicate 100000 ([] : List CellValue)).length = true ∧
     (runMem ⟨.unique, [0], ["M"], none⟩
        (List.replicate 100000 ([] : List CellValue))).buckets = ⟨[], [], [], []⟩ ∧
     (runMem ⟨.unique, [0], ["M"], none⟩
        (List.replicate 100000 ([] : List CellValue))).stats =
       (runMemWith false ⟨.unique, [0], ["M"], none⟩
        (List.replicate 100000 ([] : List CellValue))).stats) :=
  ⟨by rw [List.length_replicate]; decide,
   claim_C8_fast_mode_in_memory ⟨.unique, [0], ["M"], none⟩
     (List.replicate 100000 ([] : List CellValue)) (by rw [List.length_replicate]; decide)⟩

theorem pushLimited_ne_nil {α : Type} (b : List α) (x : α) (h : b ≠ []) :
    pushLimited b x ≠ [] := by
  unfold pushLimited
  split_ifs with hc
  · simp
  · exact h

theorem foldl_pushLimited_ne_nil {α β : Type} (g : β → α) :
    ∀ (xs : List β) (b : List α), b ≠ [] → xs.foldl (fun b n => pushLimited b (g n)) b ≠ [] := by
  intro xs
  induction xs with
  | nil => intro b h; exact h
  | cons x xs' ih =>
    intro b h
    simp only [List.foldl_cons]
    exact ih (pushLimited b (g x)) (pushLimited_ne_nil b (g x) h)

theorem scanOneColumn_valid_bucket_ne (cfg : RunConfig) (fast : Bool) (rowNum : Nat)
    (cell : Nat → CellValue) (acc : ColScan) (col : Nat)
    (h : acc.buckets.valid ≠ []) :
    (scanOneColumn cfg fast rowNum cell acc col).buckets.valid ≠ [] := by
  simp only [scanOneColumn]
  split <;> split_ifs <;>
    simp_all [foldl_pushLimited_ne_nil]

theorem scanColumns_valid_bucket_ne (cfg : RunConfig) (fast : Bool) (rowNum : Nat)
    (cell : Nat → CellValue) (stats : Stats) (buckets : Buckets)
    (h : buckets.valid ≠ []) :
    (scanColumns cfg fast rowNum cell stats buckets).buckets.valid ≠ [] := by
  unfold scanColumns
  have hgen : ∀ (cols : List Nat) (acc : ColScan), acc.buckets.valid ≠ [] →
      (cols.foldl (scanOneColumn cfg fast rowNum cell) acc).buckets.valid ≠ [] := by
    intro cols
    induction cols with
    | nil => intro acc hacc; exact hacc
    | cons c cs ih =>
      intro acc hacc
      simp only [List.foldl_cons]
      exact ih _ (scanOneColumn_valid_bucket_ne cfg fast rowNum cell acc c hacc)
  exact hgen cfg.selectedColumns ⟨[], [], stats, buckets⟩ h

theorem processRowStream_valid_bucket_ne (cfg : RunConfig) (i : Nat) (raw : List String)
    (st : StreamState) (h : st.buckets.valid ≠ []) :
    (processRowStream cfg i raw st).buckets.valid ≠ [] := by
  have hs := scanColumns_valid_bucket_ne cfg false i
    (fun c =>
      match (raw ++ List.replicate (cfg.headers.length - raw.length) "").get? c with
      | some s => CellValue.str s
      | none => CellValue.null)
    { st.stats with total := st.dataRowsProcessed + 1 } st.buckets h
  simp only [processRowStream]
  split_ifs <;> simpa using hs

theorem runStreamAux_valid_bucket_ne (cfg : RunConfig) :
    ∀ (rows : List (List String)) (i : Nat) (st : StreamState),
      st.buckets.valid ≠ [] → (runStreamAux cfg i rows st).buckets.valid ≠ [] := by
  intro rows
  induction rows with
  | nil => intro i st h; exact h
  | cons r rs ih =>
    intro i st h
    simp only [runStreamAux]
    exact ih (i + 1) _ (processRowStream_valid_bucket_ne cfg i r st h)

/-- C8 counterexample: a CSV-streaming run over 100000 data rows — at the
fast-mode threshold — still records audit samples: its valid bucket is
non-empty after the run, refuting the claim for the streaming path. -/
theorem claim_C8_counterexample :
    FAST_MODE_ROWS ≤ (List.replicate 100000 ["9818202888"]).length ∧
    (runStream ⟨.unique, [0], ["Mobile"], none⟩
      (List.replicate 100000 ["9818202888"])).buckets.valid ≠ [] := by
  constructor
  · rw [List.length_replicate]
    decide
  · have hrep : List.replicate 100000 ["9818202888"] =
        ["9818202888"] :: List.replicate 99999 ["9818202888"] := by
      rw [show (100000 : Nat) = 99999 + 1 from rfl, List.replicate_succ]
    rw [runStream, hrep]
    rw [runStreamAux]
    apply runStreamAux_valid_bucket_ne
    decide

end MobileCleaner

/-! ## Behavioural checks of the embedding
Concrete evaluations matching hand-traced runs of the source and the
executable examples of the specification. -/
example : MobileCleaner.cleanMobile (.str "9.19818202888E+11") = some "+919818202888" := by decide
example : MobileCleaner.cleanMobile (.str "919818202888") = some "+919818202888" := by decide
example : MobileCleaner.cleanMobile (.str "+91 98182-02888") = some "+919818202888" := by decide
example : MobileCleaner.cleanMobile (.int 9818202888) = some "+919818202888" := by decide
example : MobileCleaner.cleanMobile (.str "9999999999") = none := by decide
example : MobileCleaner.extractValidMobiles (.str "9818202888 9818202889 9818202890") 2 = [] := by
  decide
example : MobileCleaner.extractValidMobiles (.str "9198182028889818202889") 2 =
    ["+919818202888", "+919818202889"] := by decide
example : (MobileCleaner.cleanMobileDetailed (.int 0)).reason = .invalidLength := by decide
example : (MobileCleaner.cleanMobileDetailed (.bool false)).reason = .invalidLength := by decide
example : (MobileCleaner.cleanMobileDetailed (.str "9999999999")).reason = .invalidPattern := by decide
example : (MobileCleaner.cleanMobileDetailed (.str "12345")).reason = .invalidLength := by decide
example : MobileCleaner.normalizeMobileSource (.str "9.19818202888E+11") = "919818202888" := by decide
example : MobileCleaner.normalizeMobileSource (.str "1.5e1") = "15" := by decide
example : MobileCleaner.normalizeMobileSource (.str "1.25e1") = "12.5" := by decide
example : MobileCleaner.normalizeMobileSource (.str "-2e3") = "-2000" := by decide
example : MobileCleaner.parseLine "A,919818202888" ',' = ["A", "919818202888"] := by decide
example : MobileCleaner.parseLine "\"a,b\", c ,\"d\"\"e\"" ',' = ["a,b", "c", "d\"e"] := by decide
example : MobileCleaner.parseLine "\"abc" ',' = ["abc"] := by decide
example : MobileCleaner.detectDelimiter "Name,Mobile Number" = ',' := by decide
example : MobileCleaner.detectDelimiter "a\tb\tc,d" = '\t' := by decide
example : MobileCleaner.rawFields "\"a,b\",c" ',' = [['"', 'a', ',', 'b', '"'], ['c']] := by decide
example :
    (MobileCleaner.assessSheetSize (some ⟨0, 0, 249998, 4⟩)).warningMsg.isSome = false := by decide
section PipelineChecks
open MobileCleaner
example :
    let cfg : RunConfig := ⟨.unique, [0], ["M"], none⟩
    let out := runStream cfg [["9818202888"], ["91 9818202888"], ["9818202889"]]
    out.exportRowCount = 2 ∧ out.seenNumbers = ["9818202888", "9818202889"] ∧
      out.stats.valid = 2 ∧ out.stats.duplicates = 1 ∧ out.stats.total = 3 ∧
      out.csvLines = ["+919818202888\r\n", "+919818202889\r\n"] := by decide
example :
    let cfg : RunConfig := ⟨.keepAll, [1], ["N", "M"], some 0⟩
    let out := runMem cfg [[.str "a", .str "98182-02888"], [.str "b", .str "junk"]]
    out.cleanedRows = [[.str "a", .str "+919818202888"], [.str "b", .str "junk"]] ∧
      out.stats.valid = 1 ∧ out.stats.invalidLength = 1 := by decide
example :
    let cfg : RunConfig := ⟨.mobileName, [1], ["N", "M"], some 0⟩
    let out := runMem cfg [[.str "a", .str "9818202888"], [.str "b", .str "9818202888"]]
    out.mobileNamePairs = [(.str "a", "+919818202888")] ∧ out.stats.duplicates = 1 ∧
      out.buckets.duplicates = [⟨2, "+919818202888"⟩] ∧
      out.buckets.valid.length = 2 := by decide
end PipelineChecks
example :
    (MobileCleaner.assessSheetSize (some ⟨0, 0, 249999, 4⟩)).warningMsg.isSome = true := by decide
